import Mathlib

set_option maxRecDepth 1000000

/-!
Verification of the UDP reliable-data-transfer file server/client
(`udp_rdt`: `protocol.py`, `server.py`, `client.py`).

Bytes are modelled as `Nat` (with `< 256` hypotheses where the value
matters), byte strings as `List Nat`, Python dicts as association lists
with insert-or-replace update, and the client's blocking receive loop as
a step function over an explicit event list (`recv` / `timeout`).
-/

namespace UdpRdt

/-! ## Big-endian byte encoding (`struct.pack`/`unpack` with `>` formats) -/

/-- Big-endian encoding of `x` into `n` bytes (`struct.pack`, most
significant byte first).  Values out of range wrap modulo `2^(8n)`;
theorems that need the exact `struct.pack` behaviour carry `x < 2^(8n)`
hypotheses. -/
def beBytes : Nat → Nat → List Nat
  | 0, _ => []
  | n + 1, x => beBytes n (x / 256) ++ [x % 256]

/-- Big-endian interpretation of a byte list (`struct.unpack`). -/
def bytesToNat (l : List Nat) : Nat := l.foldl (fun a b => a * 256 + b) 0

/-- Read the `n`-byte big-endian field at offset `pos` of a buffer. -/
def readBE (data : List Nat) (pos n : Nat) : Nat :=
  bytesToNat ((data.drop pos).take n)

/-! ## CRC-32 (`zlib.crc32`): reflected polynomial 0xEDB88320 -/

/-- One bit-step of the reflected CRC-32 division. -/
def crcStep (c : Nat) : Nat :=
  if c % 2 = 1 then (c / 2) ^^^ 0xEDB88320 else c / 2

/-- Absorb one message byte into the running CRC register. -/
def crcByte (c b : Nat) : Nat := crcStep^[8] (c ^^^ b)

/-- The CRC register after absorbing a byte list. -/
def crcLoop (c : Nat) (data : List Nat) : Nat := data.foldl crcByte c

/-- `zlib.crc32(data, init) & 0xFFFFFFFF`. -/
def crc32 (data : List Nat) (init : Nat) : Nat :=
  crcLoop (init ^^^ 0xFFFFFFFF) data ^^^ 0xFFFFFFFF

/-! ## Frame codec (`protocol.py`)

Frame type bytes: GET 0x01, DATA 0x02, END 0x03, ERR 0x7F, NACK 0x11,
OK 0x12; version byte 1; final flag 0x01.  Decoders return
`Except String α` in place of raised `ValueError`s. -/

/-- Python's strict UTF-8 acceptance test, used to model
`bytes.decode("utf-8")` (which raises `UnicodeDecodeError` on invalid
input).  Rejects lone continuation bytes, overlong forms, surrogates and
code points above `U+10FFFF`, exactly as CPython does. -/
def utf8Valid : List Nat → Bool
  | [] => true
  | b :: rest =>
    if b ≤ 0x7F then utf8Valid rest
    else if b < 0xC2 then false
    else if b ≤ 0xDF then
      match rest with
      | c1 :: r => decide (0x80 ≤ c1 ∧ c1 ≤ 0xBF) && utf8Valid r
      | [] => false
    else if b ≤ 0xEF then
      match rest with
      | c1 :: c2 :: r =>
        decide ((if b = 0xE0 then 0xA0 else 0x80) ≤ c1 ∧
                c1 ≤ (if b = 0xED then 0x9F else 0xBF)) &&
        decide (0x80 ≤ c2 ∧ c2 ≤ 0xBF) && utf8Valid r
      | _ => false
    else if b ≤ 0xF4 then
      match rest with
      | c1 :: c2 :: c3 :: r =>
        decide ((if b = 0xF0 then 0x90 else 0x80) ≤ c1 ∧
                c1 ≤ (if b = 0xF4 then 0x8F else 0xBF)) &&
        decide (0x80 ≤ c2 ∧ c2 ≤ 0xBF) && decide (0x80 ≤ c3 ∧ c3 ≤ 0xBF) &&
        utf8Valid r
      | _ => false
    else false

/-- `pack_get`: `>BBBH` header (type, version, flags=0, name_len) plus the
UTF-8 name bytes. -/
def pack_get (nameB : List Nat) : List Nat :=
  [0x01, 1, 0] ++ beBytes 2 nameB.length ++ nameB

/-- `unpack_get`: header-size and type/version checks, then the name is
sliced to `name_len` bytes (a Python slice, which truncates at the buffer
end) and UTF-8 decoded. -/
def unpack_get (data : List Nat) : Except String (List Nat) :=
  if data.length < 5 then .error "GET muito curto"
  else if ¬ (data.getD 0 0 = 0x01 ∧ data.getD 1 0 = 1) then .error "GET inválido"
  else
    let nameB := (data.drop 5).take (readBE data 3 2)
    if utf8Valid nameB then .ok nameB else .error "UnicodeDecodeError"

/-- `header_wo_crc` of `pack_data`: `struct.pack(">BBBBIQQH", T_DATA,
VERSION, flags, win_id & 0xFF, seq, total_size, offset, payload_len)`. -/
def headerWoCrc (flags win seq tot off plen : Nat) : List Nat :=
  [0x02, 1, flags, win &&& 0xFF] ++ beBytes 4 seq ++ beBytes 8 tot ++
    beBytes 8 off ++ beBytes 2 plen

/-- `pack_data`: the header without checksum, CRC-32 over that header plus
payload, then the full `>BBBBIQQHI` header and payload. -/
def pack_data (win seq tot off : Nat) (payload : List Nat) (flags : Nat) :
    List Nat :=
  let hdr := headerWoCrc flags win seq tot off payload.length
  hdr ++ beBytes 4 (crc32 (hdr ++ payload) 0) ++ payload

/-- `unpack_data`: 30-byte header check, type/version check, payload slice
of `payload_len` bytes (truncating at the buffer end), CRC-32 recomputed
over `data[:26] + payload` and compared with the transmitted checksum. -/
def unpack_data (data : List Nat) :
    Except String (Nat × Nat × Nat × Nat × Nat × List Nat × Bool) :=
  if data.length < 30 then .error "DATA muito curto"
  else if ¬ (data.getD 0 0 = 0x02 ∧ data.getD 1 0 = 1) then .error "DATA inválido"
  else
    let plen := readBE data 24 2
    let payload := (data.drop 30).take plen
    let calcCrc := crc32 (data.take 26 ++ payload) 0
    if readBE data 26 4 ≠ calcCrc then .error "Checksum incorreto"
    else .ok (data.getD 3 0, readBE data 4 4, readBE data 8 8,
      readBE data 16 8, plen, payload, (data.getD 2 0 &&& 0x01) != 0)

/-- `pack_end`: `>BBBII` (type, version, F_FINAL, total_segments,
file_crc32). -/
def pack_end (totalSegments fileCrc : Nat) : List Nat :=
  [0x03, 1, 0x01] ++ beBytes 4 totalSegments ++ beBytes 4 fileCrc

/-- `unpack_end`: 11-byte header check, type/version check, returns
`(total_segments, file_crc)`. -/
def unpack_end (data : List Nat) : Except String (Nat × Nat) :=
  if data.length < 11 then .error "END muito curto"
  else if ¬ (data.getD 0 0 = 0x03 ∧ data.getD 1 0 = 1) then .error "END inválido"
  else .ok (readBE data 3 4, readBE data 7 4)

/-- `pack_err`: `>BBBH` (type, version, code, msg_len) plus the message
bytes. -/
def pack_err (code : Nat) (msgB : List Nat) : List Nat :=
  [0x7F, 1, code] ++ beBytes 2 msgB.length ++ msgB

/-- `unpack_err`: 5-byte header check, type/version check, message sliced
to `msg_len` bytes (truncating) and UTF-8 decoded. -/
def unpack_err (data : List Nat) : Except String (Nat × List Nat) :=
  if data.length < 5 then .error "ERR muito curto"
  else if ¬ (data.getD 0 0 = 0x7F ∧ data.getD 1 0 = 1) then .error "ERR inválido"
  else
    let msgB := (data.drop 5).take (readBE data 3 2)
    if utf8Valid msgB then .ok (data.getD 2 0, msgB)
    else .error "UnicodeDecodeError"

/-- `pack_nack`: `>BBBH` (type, version, flags=0, count) followed by
`count` big-endian `>I` sequence numbers. -/
def pack_nack (missing : List Nat) : List Nat :=
  [0x11, 1, 0] ++ beBytes 2 missing.length ++ (missing.map (beBytes 4)).flatten

/-- The entry-reading loop of `unpack_nack`: up to `count` 4-byte reads,
stopping early (without error) when the next read would pass the buffer
end. -/
def nackEntries (data : List Nat) (off : Nat) : Nat → List Nat
  | 0 => []
  | count + 1 =>
    if off + 4 > data.length then []
    else readBE data off 4 :: nackEntries data (off + 4) count

/-- `unpack_nack`: 5-byte header check, type/version check, then reads the
entries that fit. -/
def unpack_nack (data : List Nat) : Except String (List Nat) :=
  if data.length < 5 then .error "NACK muito curto"
  else if ¬ (data.getD 0 0 = 0x11 ∧ data.getD 1 0 = 1) then .error "NACK inválido"
  else .ok (nackEntries data 5 (readBE data 3 2))

/-- `pack_ok`: `>BBB` (type, version, 0). -/
def pack_ok : List Nat := [0x12, 1, 0]

/-! ## Python dicts as insert-or-replace association lists

`Dict` models `Dict[int, bytes]`: the client's reassembly buffer and one
server session's `seq -> encoded DATA frame` cache.  New keys are
appended (Python dict insertion order); existing keys are overwritten in
place. -/

abbrev Dict := List (Nat × List Nat)

def dictGet (d : Dict) (k : Nat) : Option (List Nat) :=
  (d.find? (fun p => p.1 = k)).map (·.2)

def dictHas (d : Dict) (k : Nat) : Bool := d.any (fun p => p.1 = k)

def dictInsert (d : Dict) (k : Nat) (v : List Nat) : Dict :=
  if dictHas d k then d.map (fun p => if p.1 = k then (k, v) else p)
  else d ++ [(k, v)]

/-- `len(d)` for a dict (keys are unique by construction). -/
def dictSize (d : Dict) : Nat := d.length

def dictKeys (d : Dict) : List Nat := d.map (·.1)

/-- `max(d.keys())` on a nonempty dict (0 when empty). -/
def maxKey (d : Dict) : Nat := (dictKeys d).foldl max 0

/-! ## Server (`server.py`) -/

/-- `chunk_file`'s generator loop: `f.read(segment_size)` is
`bytes.take sz`; an empty read ends the stream; otherwise it yields
`(seq, offset, data)` and advances by the bytes actually read. -/
def chunkAux (sz : Nat) (seq off : Nat) (bytes : List Nat) :
    List (Nat × Nat × List Nat) :=
  if h : bytes.take sz = [] then []
  else
    (seq, off, bytes.take sz) ::
      chunkAux sz (seq + 1) (off + (bytes.take sz).length) (bytes.drop sz)
termination_by bytes.length
decreasing_by
  have h1 : 0 < sz := by
    cases sz with
    | zero => simp at h
    | succ n => exact Nat.succ_pos n
  have h2 : bytes ≠ [] := by
    intro hb; rw [hb] at h; simp at h
  have := List.length_pos.mpr h2
  simp [List.length_drop]; omega

/-- `chunk_file(path, segment_size)` on a file whose contents are
`bytes`. -/
def chunk_file (bytes : List Nat) (sz : Nat) : List (Nat × Nat × List Nat) :=
  chunkAux sz 0 0 bytes

/-- The `(seq, offset, payload, flags)` quadruples of `handle_get`'s
segmenting loop: the final flag is set iff
`offset + len(payload) >= total_size`. -/
def serveFlagged (bytes : List Nat) (sz : Nat) :
    List (Nat × Nat × List Nat × Nat) :=
  (chunk_file bytes sz).map fun c =>
    (c.1, c.2.1, c.2.2, if bytes.length ≤ c.2.1 + c.2.2.length then 1 else 0)

/-- The `seq -> encoded DATA frame` cache `handle_get` builds
(`win_id = 0`, `total_size = len(bytes)`). -/
def serveFrames (bytes : List Nat) (sz : Nat) : Dict :=
  (serveFlagged bytes sz).map fun c =>
    (c.1, pack_data 0 c.1 bytes.length c.2.1 c.2.2.1 c.2.2.2)

/-- The whole-file CRC-32 `handle_get` accumulates:
`file_crc = zlib.crc32(payload, file_crc)` over the chunks, from 0. -/
def serverFileCrc (bytes : List Nat) (sz : Nat) : Nat :=
  (chunk_file bytes sz).foldl (fun acc c => crc32 c.2.2 acc) 0

/-- Everything `handle_get` transmits for an existing file: each cached
DATA frame once in ascending sequence order, then the END frame. -/
def serveAll (bytes : List Nat) (sz : Nat) : List (List Nat) :=
  (serveFrames bytes sz).map (·.2) ++
    [pack_end (chunk_file bytes sz).length (serverFileCrc bytes sz)]

/-- `handle_nack`: decode the NACK (invalid -> ignore), look up the
requester's session (`client_segments.get(addr)`); a missing or empty
session dict (`if not segs`) is ignored; otherwise each requested
sequence number's cached frame is retransmitted when present and
non-empty (`if pkt:`), in request order.  Returns the list of datagrams
sent. -/
def handle_nack (store : List ((Nat × Nat) × Dict)) (addr : Nat × Nat)
    (data : List Nat) : List (List Nat) :=
  match unpack_nack data with
  | .error _ => []
  | .ok seqs =>
    match (store.find? (fun p => p.1 = addr)).map (·.2) with
    | none => []
    | some segs =>
      if segs.isEmpty then []
      else seqs.filterMap fun s =>
        match dictGet segs s with
        | some pkt => if pkt.isEmpty then none else some pkt
        | none => none

/-! ## Client (`client.py`): `UDPClient.request_file` -/

/-- The client's loop state.  `lastT` is the local variable `t`
(`t = data[0]`): it is written on every received datagram, including the
initial reply read before the loop, and `maxSeq` starts at `-1`. -/
structure ClientState where
  req : List Nat
  dropMap : List Nat
  alreadyDropped : List Nat
  segments : Dict
  totalSize : Option Nat
  totalSegments : Option Nat
  fileCrc : Option Nat
  maxSeq : Int
  timeoutCount : Nat
  lastT : Nat
  deriving Repr, DecidableEq

/-- One iteration's input: a received datagram (with the oracle value of
the `drop_prob` random test) or a socket timeout. -/
inductive Event where
  | recv (d : List Nat) (randDrop : Bool)
  | timeout
  deriving Repr, DecidableEq

/-- How the loop body ends one iteration: `continue`, `break` (to the
finalization code), `return` with an outcome, or an uncaught exception
(`data[0]` on an empty datagram). -/
inductive StepRes where
  | cont (s : ClientState) (sends : List (List Nat))
  | brk (s : ClientState) (sends : List (List Nat))
  | halt (sends : List (List Nat))
  | crash
  deriving Repr, DecidableEq

/-- `_missing_segments`: empty buffer -> `[]`; unknown total -> gaps up
to the highest stored key; known total -> gaps below it. -/
def missingSegments (segs : Dict) (total : Option Nat) : List Nat :=
  if segs.isEmpty then []
  else
    match total with
    | none => (List.range (maxKey segs + 1)).filter (fun i => !(dictHas segs i))
    | some t => (List.range t).filter (fun i => !(dictHas segs i))

/-- One iteration of the client's receive loop. -/
def clientStep (s : ClientState) : Event → StepRes
  | .timeout =>
    let c := s.timeoutCount + 1
    if 3 ≤ c then .halt []
    else
      let s' := { s with timeoutCount := c }
      let miss := missingSegments s.segments s.totalSegments
      if ¬ miss.isEmpty then .cont s' [pack_nack miss]
      else if s.segments.isEmpty then .cont s' [s.req]
      else if s.totalSegments = none ∧ 0 ≤ s.maxSeq then
        .cont s' [pack_nack [s.maxSeq.toNat]]
      else .halt []
  | .recv d rd =>
    match d with
    | [] => .crash
    | t :: _ =>
      let s0 := { s with timeoutCount := 0, lastT := t }
      if t = 0x7F then .halt []
      else if t = 0x02 then
        match unpack_data d with
        | .error _ => .cont s0 []
        | .ok (_, seq, tsize, _, _, payload, isFinal) =>
          if s0.dropMap.contains seq ∧ ¬ s0.alreadyDropped.contains seq then
            .cont { s0 with alreadyDropped := seq :: s0.alreadyDropped } []
          else if rd then .cont s0 []
          else
            let s1 := { s0 with
              totalSize := match s0.totalSize with
                | none => some tsize
                | some x => some x,
              maxSeq := max s0.maxSeq (Int.ofNat seq),
              segments := dictInsert s0.segments seq payload,
              totalSegments := if isFinal then some (seq + 1)
                else s0.totalSegments }
            if s1.totalSegments ≠ none ∧
                s1.totalSegments.getD 0 ≤ dictSize s1.segments then
              .brk s1 [pack_ok]
            else .cont s1 []
      else if t = 0x03 then
        match unpack_end d with
        | .error _ => .cont s0 []
        | .ok (tseg, fcrc) =>
          let s1 := { s0 with totalSegments := some tseg, fileCrc := some fcrc }
          if dictSize s0.segments < tseg then
            let miss := missingSegments s0.segments (some tseg)
            if ¬ miss.isEmpty then .cont s1 [pack_nack miss]
            else .brk s1 [pack_ok]
          else .brk s1 [pack_ok]
      else .cont s0 []

/-- The request's overall result: `request_file`'s return value, or an
uncaught exception. -/
inductive Outcome where
  | success (bytes : List Nat)
  | failure
  | crashed
  deriving Repr, DecidableEq

/-- The code after the receive loop breaks: no data -> failure; default
`total_segments` to `max(keys)+1`; concatenate `segments.get(i, b"")` for
`i < total_segments`; verify length against `total_size` and CRC-32
against the END checksum when known. -/
def finalize (s : ClientState) : Outcome :=
  if s.segments.isEmpty then .failure
  else
    let t := s.totalSegments.getD (maxKey s.segments + 1)
    let db := ((List.range t).map (fun i => (dictGet s.segments i).getD [])).flatten
    let sizeBad : Bool := match s.totalSize with
      | some ts => db.length != ts
      | none => false
    let crcBad : Bool := match s.fileCrc with
      | some c => crc32 db 0 != c
      | none => false
    if sizeBad then .failure
    else if crcBad then .failure
    else .success db

/-- A run of the receive loop over an event list; `pending` when the
events are exhausted with the loop still blocked in `recvfrom`. -/
inductive RunRes where
  | finished (o : Outcome)
  | pending (s : ClientState)
  deriving Repr, DecidableEq

def clientRun (s : ClientState) : List Event → RunRes
  | [] => .pending s
  | e :: rest =>
    match clientStep s e with
    | .cont s' _ => clientRun s' rest
    | .brk s' _ => .finished (finalize s')
    | .halt _ => .finished .failure
    | .crash => .finished .crashed

/-- The loop state on entry: empty buffer, `max_seq = -1`,
`timeout_count = 0`, and `t` holding the first reply's leading byte. -/
def initState (req dropMap : List Nat) (t : Nat) : ClientState :=
  ⟨req, dropMap, [], [], none, none, none, -1, 0, t⟩

/-- `request_file` after the GET is sent: the first reply datagram is read
(`t = data[0]` — an empty datagram raises `IndexError`) and the loop then
runs over the remaining events. -/
def clientRequest (req dropMap first : List Nat) (evs : List Event) : RunRes :=
  match first with
  | [] => .finished .crashed
  | t :: _ => clientRun (initState req dropMap t) evs

/-! ## Auxiliary notions used only to state theorems -/

/-- Flip bit `j` of byte `i` of a buffer (transmission corruption). -/
def flipBit (l : List Nat) (i j : Nat) : List Nat :=
  l.set i (l.getD i 0 ^^^ 2 ^ j)

/-- Zero out the dead local variable `t` of the client loop, to compare
runs that differ only in it. -/
def eraseT (s : ClientState) : ClientState := { s with lastT := 0 }

def eraseRes : StepRes → StepRes
  | .cont s sends => .cont (eraseT s) sends
  | .brk s sends => .brk (eraseT s) sends
  | r => r

def eraseRun : RunRes → RunRes
  | .pending s => .pending (eraseT s)
  | r => r

/-- The reassembly buffer after a step of the loop (unchanged when the
step left the loop without a successor state). -/
def resSegments (s : ClientState) : StepRes → Dict
  | .cont s' _ => s'.segments
  | .brk s' _ => s'.segments
  | _ => s.segments

/-- Number of entries of a flagged segment list carrying the final
flag. -/
def countFinal (l : List (Nat × Nat × List Nat × Nat)) : Nat :=
  (l.filter fun c => c.2.2.2 == 1).length

/-! ## Lemmas: big-endian encoding -/

theorem beBytes_length (n x : Nat) : (beBytes n x).length = n := by
  induction n generalizing x with
  | zero => rfl
  | succ n ih => simp [beBytes, ih]

theorem beBytes_lt (n x : Nat) : ∀ b ∈ beBytes n x, b < 256 := by
  induction n generalizing x with
  | zero => simp [beBytes]
  | succ n ih =>
    intro b hb
    simp only [beBytes, List.mem_append, List.mem_singleton] at hb
    rcases hb with hb | hb
    · exact ih (x / 256) b hb
    · subst hb; exact Nat.mod_lt _ (by decide)

theorem bytesToNat_beBytes (n x : Nat) :
    bytesToNat (beBytes n x) = x % 2 ^ (8 * n) := by
  induction n generalizing x with
  | zero => simp [beBytes, bytesToNat, Nat.mod_one]
  | succ n ih =>
    have h1 : bytesToNat (beBytes n (x / 256) ++ [x % 256])
        = bytesToNat (beBytes n (x / 256)) * 256 + x % 256 := by
      simp [bytesToNat, List.foldl_append]
    have h2 : (2 : Nat) ^ (8 * (n + 1)) = 256 * 2 ^ (8 * n) := by ring
    rw [beBytes, h1, ih, h2, Nat.mod_mul]
    ring

theorem bytesToNat_beBytes_of_lt {n x : Nat} (h : x < 2 ^ (8 * n)) :
    bytesToNat (beBytes n x) = x := by
  rw [bytesToNat_beBytes, Nat.mod_eq_of_lt h]

theorem readBE_append (pre mid post : List Nat) (pos n : Nat)
    (hpre : pre.length = pos) (hmid : mid.length = n) :
    readBE (pre ++ (mid ++ post)) pos n = bytesToNat mid := by
  simp [readBE, List.drop_left' hpre, List.take_left' hmid]

/-! ## Lemmas: CRC-32 algebra

`crcStep` is GF(2)-linear on the register, injective below `2^32`, and
zero only at zero; hence the CRC of a message changed in a single bit
always differs from the CRC of the original message. -/

theorem crcStep_zero : crcStep 0 = 0 := by simp [crcStep]

theorem crcStep_odd {a : Nat} (h : a % 2 = 1) :
    crcStep a = a / 2 ^^^ 0xEDB88320 := by simp [crcStep, h]

theorem crcStep_even {a : Nat} (h : a % 2 = 0) : crcStep a = a / 2 := by
  simp [crcStep, h]

theorem xor_shuffle (x y z : Nat) : x ^^^ y ^^^ z = x ^^^ z ^^^ y := by
  apply Nat.eq_of_testBit_eq
  intro i
  simp only [Nat.testBit_xor]
  cases x.testBit i <;> cases y.testBit i <;> cases z.testBit i <;> rfl

theorem crcStep_xor (a b : Nat) : crcStep (a ^^^ b) = crcStep a ^^^ crcStep b := by
  have hd : (a ^^^ b) / 2 = a / 2 ^^^ b / 2 := Nat.xor_div_two
  rcases Nat.mod_two_eq_zero_or_one a with ha | ha <;>
    rcases Nat.mod_two_eq_zero_or_one b with hb | hb
  · have hab : (a ^^^ b) % 2 = 0 := by
      rcases Nat.mod_two_eq_zero_or_one (a ^^^ b) with h | h
      · exact h
      · rw [Nat.xor_mod_two_eq_one] at h; simp [ha, hb] at h
    rw [crcStep_even hab, crcStep_even ha, crcStep_even hb, hd]
  · have hab : (a ^^^ b) % 2 = 1 := by
      rw [Nat.xor_mod_two_eq_one]; simp [ha, hb]
    rw [crcStep_odd hab, crcStep_even ha, crcStep_odd hb, hd, Nat.xor_assoc]
  · have hab : (a ^^^ b) % 2 = 1 := by
      rw [Nat.xor_mod_two_eq_one]; simp [ha, hb]
    rw [crcStep_odd hab, crcStep_odd ha, crcStep_even hb, hd, Nat.xor_assoc,
      Nat.xor_assoc, Nat.xor_comm (b / 2)]
  · have hab : (a ^^^ b) % 2 = 0 := by
      rcases Nat.mod_two_eq_zero_or_one (a ^^^ b) with h | h
      · exact h
      · rw [Nat.xor_mod_two_eq_one] at h; simp [ha, hb] at h
    rw [crcStep_even hab, crcStep_odd ha, crcStep_odd hb, hd]
    apply Nat.eq_of_testBit_eq
    intro i
    simp only [Nat.testBit_xor]
    cases (a / 2).testBit i <;> cases (b / 2).testBit i <;>
      cases (0xEDB88320 : Nat).testBit i <;> rfl

theorem crcStep_iter_xor (n a b : Nat) :
    crcStep^[n] (a ^^^ b) = crcStep^[n] a ^^^ crcStep^[n] b := by
  induction n generalizing a b with
  | zero => rfl
  | succ n ih =>
    rw [Function.iterate_succ_apply, Function.iterate_succ_apply,
      Function.iterate_succ_apply, crcStep_xor, ih]

theorem crcByte_xor_left (c d b : Nat) :
    crcByte (c ^^^ d) b = crcByte c b ^^^ crcStep^[8] d := by
  have h : (c ^^^ d) ^^^ b = (c ^^^ b) ^^^ d := by
    apply Nat.eq_of_testBit_eq
    simp [Bool.xor_assoc, Bool.xor_comm, Bool.xor_left_comm]
  rw [crcByte, h, crcStep_iter_xor, crcByte]

theorem crcLoop_xor_left (l : List Nat) (c d : Nat) :
    crcLoop (c ^^^ d) l = crcLoop c l ^^^ crcStep^[8 * l.length] d := by
  induction l generalizing c d with
  | nil => simp [crcLoop]
  | cons b l ih =>
    simp only [crcLoop, List.foldl_cons] at *
    rw [crcByte_xor_left, ih, ← Function.iterate_add_apply]
    congr 2

theorem crcLoop_append (c : Nat) (l1 l2 : List Nat) :
    crcLoop c (l1 ++ l2) = crcLoop (crcLoop c l1) l2 := by
  simp [crcLoop, List.foldl_append]

theorem crcLoop_flip (c : Nat) (l1 l2 : List Nat) (b e : Nat) :
    crcLoop c (l1 ++ (b ^^^ e) :: l2)
      = crcLoop c (l1 ++ b :: l2) ^^^ crcStep^[8 * (l2.length + 1)] e := by
  have hx : crcLoop c l1 ^^^ (b ^^^ e) = (crcLoop c l1 ^^^ b) ^^^ e := by
    rw [Nat.xor_assoc]
  rw [crcLoop_append, crcLoop_append]
  simp only [crcLoop, List.foldl_cons]
  show List.foldl crcByte (crcByte (crcLoop c l1) (b ^^^ e)) l2 = _
  have h1 : crcByte (crcLoop c l1) (b ^^^ e)
      = crcByte (crcLoop c l1) b ^^^ crcStep^[8] e := by
    rw [crcByte, hx, crcStep_iter_xor, crcByte]
  rw [h1]
  show crcLoop (crcByte (crcLoop c l1) b ^^^ crcStep^[8] e) l2 = _
  rw [crcLoop_xor_left, ← Function.iterate_add_apply]
  congr 2

theorem crcStep_lt {c : Nat} (h : c < 2 ^ 32) : crcStep c < 2 ^ 32 := by
  unfold crcStep
  split
  · exact Nat.xor_lt_two_pow (Nat.lt_of_le_of_lt (Nat.div_le_self c 2) h)
      (by decide)
  · exact Nat.lt_of_le_of_lt (Nat.div_le_self c 2) h

theorem crcStep_iter_lt {c : Nat} (n : Nat) (h : c < 2 ^ 32) :
    crcStep^[n] c < 2 ^ 32 := by
  induction n with
  | zero => exact h
  | succ n ih => rw [Function.iterate_succ_apply']; exact crcStep_lt ih

theorem crcStep_inj {a b : Nat} (ha : a < 2 ^ 32) (hb : b < 2 ^ 32)
    (h : crcStep a = crcStep b) : a = b := by
  have hbit : ∀ x : Nat, x < 2 ^ 32 → x % 2 = 1 →
      2 ^ 31 ≤ x / 2 ^^^ 0xEDB88320 := by
    intro x hx _
    have hdiv : x / 2 < 2 ^ 31 := by omega
    have ht : (x / 2 ^^^ 0xEDB88320).testBit 31 = true := by
      rw [Nat.testBit_xor, Nat.testBit_lt_two_pow hdiv]
      decide
    exact Nat.testBit_implies_ge ht
  have hsm : ∀ x : Nat, x < 2 ^ 32 → x / 2 < 2 ^ 31 := by intro x hx; omega
  unfold crcStep at h
  rcases Nat.mod_two_eq_zero_or_one a with ha2 | ha2 <;>
    rcases Nat.mod_two_eq_zero_or_one b with hb2 | hb2
  · simp [ha2, hb2] at h; omega
  · simp [ha2, hb2] at h
    have := hbit b hb hb2
    have := hsm a ha
    omega
  · simp [ha2, hb2] at h
    have := hbit a ha ha2
    have := hsm b hb
    omega
  · simp [ha2, hb2] at h
    have : a / 2 = b / 2 := by
      have := congrArg (· ^^^ 0xEDB88320) h
      simpa [Nat.xor_assoc] using this
    omega

theorem crcStep_iter_ne_zero {e : Nat} (n : Nat) (he : e ≠ 0)
    (hlt : e < 2 ^ 32) : crcStep^[n] e ≠ 0 := by
  induction n with
  | zero => exact he
  | succ n ih =>
    rw [Function.iterate_succ_apply']
    intro h0
    have h1 : crcStep (crcStep^[n] e) = crcStep 0 := by rw [h0, crcStep_zero]
    exact ih (crcStep_inj (crcStep_iter_lt n hlt) (by decide) h1)

theorem xor_eq_self_iff {y d : Nat} (h : y ^^^ d = y) : d = 0 := by
  calc d = y ^^^ (y ^^^ d) := by rw [← Nat.xor_assoc, Nat.xor_self, Nat.zero_xor]
  _ = y ^^^ y := by rw [h]
  _ = 0 := Nat.xor_self y

theorem crc32_flip_ne (l1 l2 : List Nat) (b j init : Nat) (hj : j < 8) :
    crc32 (l1 ++ (b ^^^ 2 ^ j) :: l2) init ≠ crc32 (l1 ++ b :: l2) init := by
  unfold crc32
  intro h
  have h2 : crcLoop (init ^^^ 0xFFFFFFFF) (l1 ++ (b ^^^ 2 ^ j) :: l2)
      = crcLoop (init ^^^ 0xFFFFFFFF) (l1 ++ b :: l2) := by
    have := congrArg (· ^^^ 0xFFFFFFFF) h
    simpa [Nat.xor_assoc] using this
  rw [crcLoop_flip] at h2
  have hz := xor_eq_self_iff h2
  have hj32 : (2 : Nat) ^ j < 2 ^ 32 :=
    Nat.pow_lt_pow_right (by decide) (by omega)
  exact crcStep_iter_ne_zero _ (Nat.pos_iff_ne_zero.mp (Nat.pos_pow_of_pos j (by decide))) hj32 hz

theorem crc32_append (l1 l2 : List Nat) (init : Nat) :
    crc32 (l1 ++ l2) init = crc32 l2 (crc32 l1 init) := by
  unfold crc32
  rw [crcLoop_append]
  congr 2
  rw [Nat.xor_cancel_right]

theorem crcByte_lt {c b : Nat} (hc : c < 2 ^ 32) (hb : b < 2 ^ 32) :
    crcByte c b < 2 ^ 32 :=
  crcStep_iter_lt 8 (Nat.xor_lt_two_pow hc hb)

theorem crcLoop_lt {l : List Nat} {c : Nat} (h : ∀ b ∈ l, b < 256)
    (hc : c < 2 ^ 32) : crcLoop c l < 2 ^ 32 := by
  induction l generalizing c with
  | nil => exact hc
  | cons b l ih =>
    simp only [crcLoop, List.foldl_cons]
    exact ih (fun x hx => h x (List.mem_cons_of_mem _ hx))
      (crcByte_lt hc (Nat.lt_trans (h b (List.mem_cons_self _ _)) (by decide)))

theorem crc32_lt {l : List Nat} {init : Nat} (h : ∀ b ∈ l, b < 256)
    (hinit : init < 2 ^ 32) : crc32 l init < 2 ^ 32 :=
  Nat.xor_lt_two_pow (crcLoop_lt h (Nat.xor_lt_two_pow hinit (by decide)))
    (by decide)

/-! ## Lemmas: DATA frame layout -/

theorem headerWoCrc_length (f w a b c p : Nat) :
    (headerWoCrc f w a b c p).length = 26 := by
  simp [headerWoCrc, beBytes_length]

theorem headerWoCrc_bytes_lt {f : Nat} (w a b c p : Nat) (hf : f < 256) :
    ∀ x ∈ headerWoCrc f w a b c p, x < 256 := by
  intro x hx
  have hw8 : w &&& 0xFF < 2 ^ 8 := Nat.and_lt_two_pow w (by decide)
  have hw : w &&& 0xFF < 256 := by simpa using hw8
  simp only [headerWoCrc, List.append_assoc, List.cons_append,
    List.nil_append, List.mem_cons, List.mem_append] at hx
  rcases hx with h | h | h | h | h | h | h | h
  · omega
  · omega
  · omega
  · omega
  · exact beBytes_lt 4 a x h
  · exact beBytes_lt 8 b x h
  · exact beBytes_lt 8 c x h
  · exact beBytes_lt 2 p x h

theorem dataFrame_length (f w a b c p cs : Nat) (tail : List Nat) :
    (headerWoCrc f w a b c p ++ (beBytes 4 cs ++ tail)).length
      = 30 + tail.length := by
  simp [headerWoCrc_length, beBytes_length]
  omega

theorem dataFrame_getD (f w a b c p : Nat) (rest : List Nat) :
    (headerWoCrc f w a b c p ++ rest).getD 0 0 = 2 ∧
    (headerWoCrc f w a b c p ++ rest).getD 1 0 = 1 ∧
    (headerWoCrc f w a b c p ++ rest).getD 2 0 = f ∧
    (headerWoCrc f w a b c p ++ rest).getD 3 0 = w &&& 0xFF := by
  simp [headerWoCrc, List.append_assoc]

theorem dataFrame_seq (f w a b c p : Nat) (rest : List Nat) :
    readBE (headerWoCrc f w a b c p ++ rest) 4 4 = a % 2 ^ 32 := by
  have hs : headerWoCrc f w a b c p ++ rest
      = [2, 1, f, w &&& 0xFF] ++ (beBytes 4 a ++
        (beBytes 8 b ++ beBytes 8 c ++ beBytes 2 p ++ rest)) := by
    simp [headerWoCrc, List.append_assoc]
  rw [hs, readBE_append _ _ _ _ _ (by simp) (beBytes_length 4 a),
    bytesToNat_beBytes]

theorem dataFrame_tot (f w a b c p : Nat) (rest : List Nat) :
    readBE (headerWoCrc f w a b c p ++ rest) 8 8 = b % 2 ^ 64 := by
  have hs : headerWoCrc f w a b c p ++ rest
      = ([2, 1, f, w &&& 0xFF] ++ beBytes 4 a) ++ (beBytes 8 b ++
        (beBytes 8 c ++ beBytes 2 p ++ rest)) := by
    simp [headerWoCrc, List.append_assoc]
  rw [hs, readBE_append _ _ _ _ _ (by simp [beBytes_length])
    (beBytes_length 8 b), bytesToNat_beBytes]

theorem dataFrame_off (f w a b c p : Nat) (rest : List Nat) :
    readBE (headerWoCrc f w a b c p ++ rest) 16 8 = c % 2 ^ 64 := by
  have hs : headerWoCrc f w a b c p ++ rest
      = ([2, 1, f, w &&& 0xFF] ++ beBytes 4 a ++ beBytes 8 b) ++
        (beBytes 8 c ++ (beBytes 2 p ++ rest)) := by
    simp [headerWoCrc, List.append_assoc]
  rw [hs, readBE_append _ _ _ _ _ (by simp [beBytes_length])
    (beBytes_length 8 c), bytesToNat_beBytes]

theorem dataFrame_plen (f w a b c p : Nat) (rest : List Nat) :
    readBE (headerWoCrc f w a b c p ++ rest) 24 2 = p % 2 ^ 16 := by
  have hs : headerWoCrc f w a b c p ++ rest
      = ([2, 1, f, w &&& 0xFF] ++ beBytes 4 a ++ beBytes 8 b ++ beBytes 8 c)
        ++ (beBytes 2 p ++ rest) := by
    simp [headerWoCrc, List.append_assoc]
  rw [hs, readBE_append _ _ _ _ _ (by simp [beBytes_length])
    (beBytes_length 2 p), bytesToNat_beBytes]

theorem dataFrame_csum (f w a b c p cs : Nat) (tail : List Nat) :
    readBE (headerWoCrc f w a b c p ++ (beBytes 4 cs ++ tail)) 26 4
      = cs % 2 ^ 32 := by
  rw [readBE_append _ _ _ _ _ (headerWoCrc_length f w a b c p)
    (beBytes_length 4 cs), bytesToNat_beBytes]

theorem dataFrame_take26 (f w a b c p : Nat) (rest : List Nat) :
    (headerWoCrc f w a b c p ++ rest).take 26 = headerWoCrc f w a b c p :=
  List.take_left' (headerWoCrc_length f w a b c p)

theorem dataFrame_drop30 (f w a b c p cs : Nat) (tail : List Nat) :
    (headerWoCrc f w a b c p ++ (beBytes 4 cs ++ tail)).drop 30 = tail := by
  have hs : headerWoCrc f w a b c p ++ (beBytes 4 cs ++ tail)
      = (headerWoCrc f w a b c p ++ beBytes 4 cs) ++ tail := by
    simp [List.append_assoc]
  rw [hs, List.drop_left' (by simp [headerWoCrc_length, beBytes_length])]

/-! ## Lemmas: reads of a buffer with one byte overwritten -/

theorem set_getD_self (l : List Nat) (i : Nat) : l.set i (l.getD i 0) = l := by
  apply List.ext_getElem?
  intro k
  by_cases h : i = k
  · subst h
    by_cases hi : i < l.length
    · rw [List.getElem?_set_self hi]
      simp [List.getElem?_eq_getElem hi, List.getD_eq_getElem?_getD,
        List.getElem?_eq_getElem hi]
    · rw [List.set_eq_of_length_le (by omega)]
  · rw [List.getElem?_set_ne h]

theorem getD_set_ne (l : List Nat) (i v k : Nat) (h : i ≠ k) :
    (l.set i v).getD k 0 = l.getD k 0 := by
  simp [List.getD_eq_getElem?_getD, List.getElem?_set_ne h]

theorem getD_set_self (l : List Nat) (i v : Nat) (hi : i < l.length) :
    (l.set i v).getD i 0 = v := by
  simp [List.getD_eq_getElem?_getD, List.getElem?_set_self hi]

theorem readBE_set_outside (l : List Nat) (i v pos n : Nat)
    (h : i < pos ∨ pos + n ≤ i) : readBE (l.set i v) pos n = readBE l pos n := by
  unfold readBE
  congr 1
  apply List.ext_getElem?
  intro k
  rw [List.getElem?_take, List.getElem?_take]
  by_cases hk : k < n
  · rw [if_pos hk, if_pos hk, List.getElem?_drop, List.getElem?_drop,
      List.getElem?_set_ne (show i ≠ pos + k by omega)]
  · rw [if_neg hk, if_neg hk]

theorem take_set_of_le (l : List Nat) (i v n : Nat) (h : n ≤ i) :
    (l.set i v).take n = l.take n := by
  apply List.ext_getElem?
  intro k
  rw [List.getElem?_take, List.getElem?_take]
  by_cases hk : k < n
  · rw [if_pos hk, if_pos hk, List.getElem?_set_ne (by omega)]
  · rw [if_neg hk, if_neg hk]

theorem drop_set_of_lt (l : List Nat) (i v n : Nat) (h : i < n) :
    (l.set i v).drop n = l.drop n := by
  apply List.ext_getElem?
  intro k
  rw [List.getElem?_drop, List.getElem?_drop,
    List.getElem?_set_ne (by omega)]

theorem drop_set_of_le (l : List Nat) (i v n : Nat) (h : n ≤ i) :
    (l.set i v).drop n = (l.drop n).set (i - n) v := by
  apply List.ext_getElem?
  intro k
  rw [List.getElem?_drop]
  by_cases hk : i = n + k
  · subst hk
    by_cases hlen : n + k < l.length
    · rw [List.getElem?_set_self hlen,
        show n + k - n = k by omega,
        List.getElem?_set_self (by simp [List.length_drop]; omega)]
    · rw [List.set_eq_of_length_le (by omega),
        List.set_eq_of_length_le (by simp [List.length_drop]; omega),
        List.getElem?_drop]
  · rw [List.getElem?_set_ne hk,
      List.getElem?_set_ne (show i - n ≠ k by omega), List.getElem?_drop]

/-- Flipping any single bit of a message changes its CRC-32. -/
theorem crc32_set_flip_ne (m : List Nat) (i j init : Nat) (hi : i < m.length)
    (hj : j < 8) :
    crc32 (m.set i (m.getD i 0 ^^^ 2 ^ j)) init ≠ crc32 m init := by
  have hset : ∀ v, m.set i v = m.take i ++ v :: m.drop (i + 1) := by
    intro v
    rw [List.set_eq_take_append_cons_drop, if_pos hi]
  have hm : m = m.take i ++ m.getD i 0 :: m.drop (i + 1) := by
    conv_lhs => rw [← set_getD_self m i]
    exact hset _
  have key := crc32_flip_ne (m.take i) (m.drop (i + 1)) (m.getD i 0) j init hj
  rw [← hset, ← hm] at key
  exact key

theorem take_set_of_lt (l : List Nat) (i v n : Nat) (h : i < n) :
    (l.set i v).take n = (l.take n).set i v := by
  apply List.ext_getElem?
  intro k
  by_cases hk : i = k
  · subst hk
    by_cases hlen : i < l.length
    · rw [List.getElem?_take, if_pos h, List.getElem?_set_self hlen,
        List.getElem?_set_self (by simp [List.length_take]; omega)]
    · rw [List.set_eq_of_length_le (by omega),
        List.set_eq_of_length_le (by simp [List.length_take]; omega),
        List.getElem?_take]
  · rw [List.getElem?_set_ne hk, List.getElem?_take, List.getElem?_take]
    by_cases hkn : k < n
    · rw [if_pos hkn, if_pos hkn, List.getElem?_set_ne hk]
    · rw [if_neg hkn, if_neg hkn]

theorem getD_append_left (l₁ l₂ : List Nat) (i : Nat) (h : i < l₁.length) :
    (l₁ ++ l₂).getD i 0 = l₁.getD i 0 := by
  simp [List.getD_eq_getElem?_getD, List.getElem?_append_left h]

theorem getD_append_right (l₁ l₂ : List Nat) (i : Nat) (h : l₁.length ≤ i) :
    (l₁ ++ l₂).getD i 0 = l₂.getD (i - l₁.length) 0 := by
  simp [List.getD_eq_getElem?_getD, List.getElem?_append_right h]

theorem pack_data_eq (win seq tot off flags : Nat) (payload : List Nat) :
    pack_data win seq tot off payload flags
      = headerWoCrc flags win seq tot off payload.length ++
        (beBytes 4 (crc32 (headerWoCrc flags win seq tot off payload.length
          ++ payload) 0) ++ payload) := by
  simp [pack_data, List.append_assoc]

/-- `unpack_data` inverts `pack_data`, ignoring any trailing bytes beyond
the declared payload length. -/
theorem unpack_data_pack_data (win seq tot off flags : Nat)
    (payload junk : List Nat) (hf : flags < 256) (hseq : seq < 2 ^ 32)
    (htot : tot < 2 ^ 64) (hoff : off < 2 ^ 64)
    (hplen : payload.length < 2 ^ 16) (hpb : ∀ x ∈ payload, x < 256) :
    unpack_data (pack_data win seq tot off payload flags ++ junk)
      = .ok (win &&& 0xFF, seq, tot, off, payload.length, payload,
          (flags &&& 0x01) != 0) := by
  have hcs : crc32 (headerWoCrc flags win seq tot off payload.length
      ++ payload) 0 < 2 ^ 32 := by
    apply crc32_lt _ (by decide)
    intro x hx
    rcases List.mem_append.mp hx with h | h
    · exact headerWoCrc_bytes_lt win seq tot off payload.length hf x h
    · exact hpb x h
  have hshape : pack_data win seq tot off payload flags ++ junk
      = headerWoCrc flags win seq tot off payload.length ++
        (beBytes 4 (crc32 (headerWoCrc flags win seq tot off payload.length
          ++ payload) 0) ++ (payload ++ junk)) := by
    rw [pack_data_eq]
    simp [List.append_assoc]
  rw [hshape]
  unfold unpack_data
  rw [if_neg (by rw [dataFrame_length]; omega)]
  have hg := dataFrame_getD flags win seq tot off payload.length
    (beBytes 4 (crc32 (headerWoCrc flags win seq tot off payload.length
      ++ payload) 0) ++ (payload ++ junk))
  rw [if_neg (not_not_intro ⟨hg.1, hg.2.1⟩)]
  simp only [dataFrame_plen, dataFrame_csum, dataFrame_take26,
    dataFrame_drop30, dataFrame_seq, dataFrame_tot, dataFrame_off,
    hg.1, hg.2.1, hg.2.2.1, hg.2.2.2]
  rw [Nat.mod_eq_of_lt hplen, Nat.mod_eq_of_lt hcs, Nat.mod_eq_of_lt hseq,
    Nat.mod_eq_of_lt htot, Nat.mod_eq_of_lt hoff]
  rw [List.take_left]
  simp

theorem unpack_data_checksum_error (data : List Nat)
    (hlen : 30 ≤ data.length) (h0 : data.getD 0 0 = 2) (h1 : data.getD 1 0 = 1)
    (hne : readBE data 26 4
      ≠ crc32 (data.take 26 ++ (data.drop 30).take (readBE data 24 2)) 0) :
    unpack_data data = .error "Checksum incorreto" := by
  simp only [unpack_data]
  rw [if_neg (by omega), if_neg (not_not_intro ⟨h0, h1⟩), if_pos hne]

theorem unpack_data_type_error (data : List Nat)
    (hlen : 30 ≤ data.length)
    (h01 : ¬ (data.getD 0 0 = 2 ∧ data.getD 1 0 = 1)) :
    unpack_data data = .error "DATA inválido" := by
  simp only [unpack_data]
  rw [if_neg (by omega), if_pos h01]

/-- A single-bit flip in the covered header region (bytes 2..23) of a
well-formed DATA frame makes the recomputed CRC mismatch the transmitted
one. -/
theorem flip_checksum_error_general (H payload : List Nat) (cs i j : Nat)
    (hH26 : H.length = 26) (h0 : H.getD 0 0 = 2) (h1 : H.getD 1 0 = 1)
    (hcs : cs < 2 ^ 32)
    (hplenread : readBE (H ++ (beBytes 4 cs ++ payload)) 24 2
      = payload.length)
    (hcseq : cs = crc32 (H ++ payload) 0) (hj : j < 8)
    (hi : 2 ≤ i ∧ i < 24 ∨ 30 ≤ i ∧ i < 30 + payload.length) :
    unpack_data (flipBit (H ++ (beBytes 4 cs ++ payload)) i j)
      = .error "Checksum incorreto" := by
  have hFlen : (H ++ (beBytes 4 cs ++ payload)).length
      = 30 + payload.length := by
    simp [List.length_append, hH26, beBytes_length]
    omega
  have hcsread : readBE (H ++ (beBytes 4 cs ++ payload)) 26 4 = cs := by
    rw [readBE_append _ _ _ _ _ hH26 (beBytes_length 4 cs),
      bytesToNat_beBytes_of_lt (by simpa using hcs)]
  have htake26 : (H ++ (beBytes 4 cs ++ payload)).take 26 = H :=
    List.take_left' hH26
  have hdrop30 : (H ++ (beBytes 4 cs ++ payload)).drop 30 = payload := by
    rw [show H ++ (beBytes 4 cs ++ payload)
      = (H ++ beBytes 4 cs) ++ payload by simp [List.append_assoc],
      List.drop_left' (by simp [hH26, beBytes_length])]
  have hgF0 : (H ++ (beBytes 4 cs ++ payload)).getD 0 0 = 2 := by
    rw [getD_append_left _ _ _ (by omega)]; exact h0
  have hgF1 : (H ++ (beBytes 4 cs ++ payload)).getD 1 0 = 1 := by
    rw [getD_append_left _ _ _ (by omega)]; exact h1
  rw [flipBit]
  rcases hi with ⟨hi2, hi24⟩ | ⟨hi30, hiP⟩
  · apply unpack_data_checksum_error
    · rw [List.length_set]; omega
    · rw [getD_set_ne _ _ _ _ (by omega)]; exact hgF0
    · rw [getD_set_ne _ _ _ _ (by omega)]; exact hgF1
    · rw [readBE_set_outside _ _ _ _ _ (Or.inl (by omega)), hcsread,
        readBE_set_outside _ _ _ _ _ (Or.inl (by omega)), hplenread,
        take_set_of_lt _ _ _ _ (by omega), htake26,
        drop_set_of_lt _ _ _ _ (by omega), hdrop30,
        List.take_of_length_le (Nat.le_refl _)]
      have hvq : (H ++ (beBytes 4 cs ++ payload)).getD i 0 = H.getD i 0 :=
        getD_append_left _ _ _ (by omega)
      rw [hvq, List.set_append_left _ _ (by omega) |>.symm,
        (getD_append_left H payload i (by omega)).symm, hcseq]
      exact Ne.symm (crc32_set_flip_ne (H ++ payload) i j 0
        (by simp [List.length_append]; omega) hj)
  · apply unpack_data_checksum_error
    · rw [List.length_set]; omega
    · rw [getD_set_ne _ _ _ _ (by omega)]; exact hgF0
    · rw [getD_set_ne _ _ _ _ (by omega)]; exact hgF1
    · rw [readBE_set_outside _ _ _ _ _ (Or.inr (by omega)), hcsread,
        readBE_set_outside _ _ _ _ _ (Or.inr (by omega)), hplenread,
        take_set_of_le _ _ _ _ (by omega), htake26,
        drop_set_of_le _ _ _ _ (by omega), hdrop30,
        List.take_of_length_le (by rw [List.length_set])]
      have hvq : (H ++ (beBytes 4 cs ++ payload)).getD i 0
          = payload.getD (i - 30) 0 := by
        rw [show H ++ (beBytes 4 cs ++ payload)
          = (H ++ beBytes 4 cs) ++ payload by simp [List.append_assoc],
          getD_append_right _ _ _ (by simp [hH26, beBytes_length]; omega)]
        congr 1
        simp [hH26, beBytes_length]
      rw [hvq]
      have hfinal : crc32 (H ++ payload.set (i - 30)
          (payload.getD (i - 30) 0 ^^^ 2 ^ j)) 0 ≠ crc32 (H ++ payload) 0 := by
        have h1eq : (H ++ payload).set (26 + (i - 30))
            ((H ++ payload).getD (26 + (i - 30)) 0 ^^^ 2 ^ j)
            = H ++ payload.set (i - 30) (payload.getD (i - 30) 0 ^^^ 2 ^ j) := by
          rw [List.set_append_right _ _ (by omega),
            getD_append_right _ _ _ (by omega), hH26,
            Nat.add_sub_cancel_left]
        rw [← h1eq]
        exact crc32_set_flip_ne (H ++ payload) (26 + (i - 30)) j 0
          (by simp [List.length_append, hH26]; omega) hj
      rw [hcseq]
      exact Ne.symm hfinal

/-- A single-bit flip in the type or version byte of a well-formed DATA
frame makes decoding fail with the structural (malformed) error. -/
theorem flip_type_error_general (H payload : List Nat) (cs i j : Nat)
    (hH26 : H.length = 26) (h0 : H.getD 0 0 = 2) (h1 : H.getD 1 0 = 1)
    (hj : j < 8) (hi : i < 2) :
    unpack_data (flipBit (H ++ (beBytes 4 cs ++ payload)) i j)
      = .error "DATA inválido" := by
  have hFlen : (H ++ (beBytes 4 cs ++ payload)).length
      = 30 + payload.length := by
    simp [List.length_append, hH26, beBytes_length]
    omega
  have hgF0 : (H ++ (beBytes 4 cs ++ payload)).getD 0 0 = 2 := by
    rw [getD_append_left _ _ _ (by omega)]; exact h0
  have hgF1 : (H ++ (beBytes 4 cs ++ payload)).getD 1 0 = 1 := by
    rw [getD_append_left _ _ _ (by omega)]; exact h1
  have hpow : (2 : Nat) ^ j ≠ 0 := (Nat.pos_pow_of_pos j (by decide)).ne'
  rw [flipBit]
  apply unpack_data_type_error
  · rw [List.length_set]; omega
  · interval_cases i
    · rw [getD_set_self _ _ _ (by omega), hgF0]
      intro hc
      exact hpow (xor_eq_self_iff hc.1)
    · rw [getD_set_ne _ _ _ _ (by omega), getD_set_self _ _ _ (by omega),
        hgF1]
      intro hc
      exact hpow (xor_eq_self_iff hc.2)

/-! ## Lemmas: the client step never stores an undecodable datagram -/

/-- Any received datagram that is not an ERR frame and whose DATA decode
(if its type byte says DATA) fails leaves the reassembly buffer
untouched. -/
theorem resSegments_recv (s : ClientState) (d : List Nat) (rd : Bool)
    (hne : d ≠ [])
    (hdata : d.getD 0 0 = 2 → ∃ msg, unpack_data d = .error msg)
    (herr : d.getD 0 0 ≠ 0x7F) :
    resSegments s (clientStep s (.recv d rd)) = s.segments := by
  obtain ⟨t, rest, rfl⟩ : ∃ t rest, d = t :: rest := by
    cases d with
    | nil => exact absurd rfl hne
    | cons a l => exact ⟨a, l, rfl⟩
  have hgd : (t :: rest).getD 0 0 = t := rfl
  simp only [clientStep]
  rw [if_neg (by rw [hgd] at herr; exact herr)]
  by_cases h2 : t = 2
  · rw [if_pos h2]
    obtain ⟨msg, hmsg⟩ := hdata (by rw [hgd, h2])
    rw [hmsg]
    rfl
  · rw [if_neg h2]
    by_cases h3 : t = 3
    · rw [if_pos h3]
      cases hu : unpack_end (t :: rest) with
      | error e => rfl
      | ok p =>
        obtain ⟨tseg, fcrc⟩ := p
        simp only []
        split_ifs <;> rfl
    · rw [if_neg h3]
      rfl

/-- C2 (amended): a single-bit flip of a well-formed encoded DATA frame
at any position of its payload, or of its header outside the checksum
and payload-length fields, makes `unpack_data` fail — with the
malformed-frame error for the type/version bytes 0 and 1, and with the
integrity (checksum) error everywhere else — and the client's receive
step leaves the reassembly buffer unchanged on such a datagram. -/
theorem c2_single_bit_flip_rejected (win seq tot off flags : Nat)
    (payload : List Nat) (i j : Nat) (hf : flags < 256)
    (hplen : payload.length < 2 ^ 16) (hpb : ∀ x ∈ payload, x < 256)
    (hj : j < 8)
    (hi : i < 24 ∨ 30 ≤ i ∧
      i < (pack_data win seq tot off payload flags).length) :
    (∃ msg, unpack_data
        (flipBit (pack_data win seq tot off payload flags) i j)
        = .error msg) ∧
    (2 ≤ i → unpack_data
        (flipBit (pack_data win seq tot off payload flags) i j)
        = .error "Checksum incorreto") ∧
    (i < 2 → unpack_data
        (flipBit (pack_data win seq tot off payload flags) i j)
        = .error "DATA inválido") ∧
    ∀ (s : ClientState) (rd : Bool),
      resSegments s (clientStep s
        (.recv (flipBit (pack_data win seq tot off payload flags) i j) rd))
      = s.segments := by
  have hpe := pack_data_eq win seq tot off flags payload
  have hH26 := headerWoCrc_length flags win seq tot off payload.length
  have h0 : (headerWoCrc flags win seq tot off payload.length).getD 0 0
      = 2 := by simp [headerWoCrc, List.append_assoc]
  have h1 : (headerWoCrc flags win seq tot off payload.length).getD 1 0
      = 1 := by simp [headerWoCrc, List.append_assoc]
  have hcs : crc32 (headerWoCrc flags win seq tot off payload.length
      ++ payload) 0 < 2 ^ 32 := by
    apply crc32_lt _ (by decide)
    intro x hx
    rcases List.mem_append.mp hx with h | h
    · exact headerWoCrc_bytes_lt win seq tot off payload.length hf x h
    · exact hpb x h
  have hplenread : readBE (headerWoCrc flags win seq tot off payload.length
      ++ (beBytes 4 (crc32 (headerWoCrc flags win seq tot off payload.length
        ++ payload) 0) ++ payload)) 24 2 = payload.length := by
    rw [dataFrame_plen, Nat.mod_eq_of_lt hplen]
  have hlenF : (pack_data win seq tot off payload flags).length
      = 30 + payload.length := by
    rw [hpe]
    exact dataFrame_length _ _ _ _ _ _ _ _
  have hF0 : (pack_data win seq tot off payload flags).getD 0 0 = 2 := by
    rw [hpe, getD_append_left _ _ _ (by omega)]
    exact h0
  have hmalformed : i < 2 → unpack_data
      (flipBit (pack_data win seq tot off payload flags) i j)
      = .error "DATA inválido" := by
    intro hi2
    rw [hpe]
    exact flip_type_error_general _ _ _ _ _ hH26 h0 h1 hj hi2
  have hchecksum : 2 ≤ i → unpack_data
      (flipBit (pack_data win seq tot off payload flags) i j)
      = .error "Checksum incorreto" := by
    intro hi2
    rw [hpe]
    apply flip_checksum_error_general _ _ _ _ _ hH26 h0 h1 hcs hplenread
      rfl hj
    rcases hi with h | ⟨h30, hlt⟩
    · exact Or.inl ⟨hi2, h⟩
    · rw [hlenF] at hlt
      exact Or.inr ⟨h30, hlt⟩
  have hex : ∃ msg, unpack_data
      (flipBit (pack_data win seq tot off payload flags) i j)
      = .error msg := by
    by_cases hi2 : i < 2
    · exact ⟨_, hmalformed hi2⟩
    · exact ⟨_, hchecksum (by omega)⟩
  refine ⟨hex, hchecksum, hmalformed, ?_⟩
  intro s rd
  apply resSegments_recv
  · intro hn
    have hcl := congrArg List.length hn
    rw [flipBit, List.length_set, hlenF] at hcl
    simp at hcl
  · intro _
    exact hex
  · by_cases hi0 : i = 0
    · subst hi0
      rw [flipBit, getD_set_self _ _ _ (by omega), hF0]
      interval_cases j <;> decide
    · rw [flipBit, getD_set_ne _ _ _ _ hi0, hF0]
      decide

/-- C2 counterexample: for the concrete DATA frame with
`win_id=0, seq=0, total_size=4, offset=0, flags=F_FINAL` and payload
`[68, 83, 55, 161]`, flipping bit 2 of byte 25 (the low byte of the
payload-length field, turning 4 into 0) yields a buffer that decodes
*successfully* — with an empty truncated payload — and the client's
receive step stores that flipped payload in its reassembly buffer. -/
theorem c2_counterexample_payload_len_flip :
    unpack_data (flipBit (pack_data 0 0 4 0 [68, 83, 55, 161] 1) 25 2)
      = .ok (0, 0, 4, 0, 0, [], true) ∧
    resSegments (initState [1] [] 2)
      (clientStep (initState [1] [] 2)
        (.recv (flipBit (pack_data 0 0 4 0 [68, 83, 55, 161] 1) 25 2)
          false))
      = [(0, [])] := by
  constructor
  · rfl
  · decide

/-- Witness for `c2_single_bit_flip_rejected` at a concrete frame and
flip position (the flags byte, bit 0). -/
theorem c2_single_bit_flip_rejected_witness :
    unpack_data (flipBit (pack_data 0 0 1 0 [65] 1) 2 0)
      = .error "Checksum incorreto" :=
  (c2_single_bit_flip_rejected 0 0 1 0 1 [65] 2 0 (by decide) (by decide)
    (by decide) (by decide) (Or.inl (by decide))).2.1 (by decide)

/-- C10 (confirmed): a well-formed DATA frame followed by arbitrary
trailing bytes decodes exactly as the frame without them: the payload is
truncated to the declared `payload_len` and the checksum covers only the
header-minus-checksum plus that payload, so the junk neither fails the
integrity check nor reaches the result. -/
theorem c10_trailing_junk_ignored (win seq tot off flags : Nat)
    (payload junk : List Nat) (hf : flags < 256) (hseq : seq < 2 ^ 32)
    (htot : tot < 2 ^ 64) (hoff : off < 2 ^ 64)
    (hplen : payload.length < 2 ^ 16) (hpb : ∀ x ∈ payload, x < 256) :
    unpack_data (pack_data win seq tot off payload flags ++ junk)
      = unpack_data (pack_data win seq tot off payload flags) ∧
    unpack_data (pack_data win seq tot off payload flags ++ junk)
      = .ok (win &&& 0xFF, seq, tot, off, payload.length, payload,
          (flags &&& 0x01) != 0) := by
  have h1 := unpack_data_pack_data win seq tot off flags payload junk hf
    hseq htot hoff hplen hpb
  have h2 := unpack_data_pack_data win seq tot off flags payload [] hf
    hseq htot hoff hplen hpb
  rw [List.append_nil] at h2
  exact ⟨h1.trans h2.symm, h1⟩

/-! ## Lemmas: the segmenter -/

theorem chunkAux_unfold (sz seq off : Nat) (bytes : List Nat) :
    chunkAux sz seq off bytes
      = if bytes.take sz = [] then []
        else (seq, off, bytes.take sz) ::
          chunkAux sz (seq + 1) (off + (bytes.take sz).length)
            (bytes.drop sz) := by
  rw [chunkAux]
  split <;> simp [*]

theorem take_eq_nil_of_pos {sz : Nat} {bytes : List Nat} (hsz : 1 ≤ sz)
    (h : bytes.take sz = []) : bytes = [] := by
  cases bytes with
  | nil => rfl
  | cons a l =>
    cases sz with
    | zero => omega
    | succ m => simp [List.take] at h

theorem chunk_join_aux (sz : Nat) (hsz : 1 ≤ sz) :
    ∀ (n : Nat) (bytes : List Nat), bytes.length ≤ n → ∀ seq off,
      ((chunkAux sz seq off bytes).map (fun c => c.2.2)).flatten = bytes := by
  intro n
  induction n with
  | zero =>
    intro bytes hlen seq off
    have hb : bytes = [] := by cases bytes <;> simp_all
    subst hb
    rw [chunkAux_unfold]
    simp
  | succ n ih =>
    intro bytes hlen seq off
    rw [chunkAux_unfold]
    by_cases h : bytes.take sz = []
    · rw [if_pos h, take_eq_nil_of_pos hsz h]
      rfl
    · rw [if_neg h]
      have hbne : bytes ≠ [] := by
        intro hb
        subst hb
        simp at h
      have hpos : 0 < bytes.length := List.length_pos.mpr hbne
      simp only [List.map_cons, List.flatten_cons]
      rw [ih (bytes.drop sz) (by simp [List.length_drop]; omega) _ _]
      exact List.take_append_drop sz bytes

theorem chunk_seq_aux (sz : Nat) (hsz : 1 ≤ sz) :
    ∀ (n : Nat) (bytes : List Nat), bytes.length ≤ n → ∀ seq off,
      (chunkAux sz seq off bytes).map (fun c => c.1)
        = List.range' seq (chunkAux sz seq off bytes).length := by
  intro n
  induction n with
  | zero =>
    intro bytes hlen seq off
    have hb : bytes = [] := by cases bytes <;> simp_all
    subst hb
    rw [chunkAux_unfold]
    simp
  | succ n ih =>
    intro bytes hlen seq off
    rw [chunkAux_unfold]
    by_cases h : bytes.take sz = []
    · rw [if_pos h]
      simp
    · rw [if_neg h]
      have hbne : bytes ≠ [] := by
        intro hb
        subst hb
        simp at h
      have hpos : 0 < bytes.length := List.length_pos.mpr hbne
      simp only [List.map_cons, List.length_cons, List.range'_succ]
      rw [ih (bytes.drop sz) (by simp [List.length_drop]; omega) _ _]

theorem chunk_le_aux (sz : Nat) (hsz : 1 ≤ sz) :
    ∀ (n : Nat) (bytes : List Nat), bytes.length ≤ n → ∀ seq off,
      ∀ c ∈ chunkAux sz seq off bytes,
        c.2.1 + c.2.2.length ≤ off + bytes.length := by
  intro n
  induction n with
  | zero =>
    intro bytes hlen seq off c hc
    have hb : bytes = [] := by cases bytes <;> simp_all
    subst hb
    rw [chunkAux_unfold] at hc
    simp at hc
  | succ n ih =>
    intro bytes hlen seq off c hc
    rw [chunkAux_unfold] at hc
    by_cases h : bytes.take sz = []
    · rw [if_pos h] at hc
      simp at hc
    · rw [if_neg h] at hc
      have hbne : bytes ≠ [] := by
        intro hb
        subst hb
        simp at h
      have hpos : 0 < bytes.length := List.length_pos.mpr hbne
      have htl : (bytes.take sz).length ≤ bytes.length := by
        simp [List.length_take]
      rcases List.mem_cons.mp hc with hc | hc
      · subst hc
        simp only []
        omega
      · have := ih (bytes.drop sz) (by simp [List.length_drop]; omega)
          (seq + 1) (off + (bytes.take sz).length) c hc
        simp only [List.length_drop, List.length_take] at this ⊢
        omega

theorem chunk_final_count_aux (sz : Nat) (hsz : 1 ≤ sz) :
    ∀ (n : Nat) (bytes : List Nat), bytes.length ≤ n → bytes ≠ [] →
      ∀ seq off total, off + bytes.length = total →
      ((chunkAux sz seq off bytes).filter
        (fun c => decide (total ≤ c.2.1 + c.2.2.length))).length = 1 := by
  intro n
  induction n with
  | zero =>
    intro bytes hlen hne seq off total htot
    cases bytes <;> simp_all
  | succ n ih =>
    intro bytes hlen hne seq off total htot
    rw [chunkAux_unfold]
    have h : ¬ bytes.take sz = [] := fun h => hne (take_eq_nil_of_pos hsz h)
    rw [if_neg h]
    have hpos : 0 < bytes.length := List.length_pos.mpr hne
    by_cases hd : bytes.drop sz = []
    · have hlsz : bytes.length ≤ sz := by
        rw [← List.drop_eq_nil_iff_le]
        exact hd
      have htk : bytes.take sz = bytes := List.take_of_length_le hlsz
      have hcempty : chunkAux sz (seq + 1) (off + (bytes.take sz).length)
          (bytes.drop sz) = [] := by
        rw [hd, chunkAux_unfold]
        simp
      rw [List.filter_cons, hcempty,
        if_pos (by simp only [decide_eq_true_eq]; rw [htk]; omega)]
      rfl
    · have hgt : sz < bytes.length := by
        by_contra hle
        exact hd (List.drop_eq_nil_iff_le.mpr (by omega))
      have htksz : (bytes.take sz).length = sz := by
        simp [List.length_take]
        omega
      rw [List.filter_cons,
        if_neg (by simp only [decide_eq_true_eq]; rw [htksz]; omega)]
      exact ih (bytes.drop sz) (by simp [List.length_drop]; omega)
        (by
          intro hdd
          exact hd hdd)
        (seq + 1) (off + (bytes.take sz).length) total
        (by simp [List.length_drop, htksz]; omega)

theorem crc_fold_flatten (chunks : List (List Nat)) (init : Nat) :
    chunks.foldl (fun acc p => crc32 p acc) init
      = crc32 chunks.flatten init := by
  induction chunks generalizing init with
  | nil => simp [crc32, crcLoop, Nat.xor_cancel_right]
  | cons p ps ih =>
    simp only [List.foldl_cons, List.flatten_cons]
    rw [ih, crc32_append]

/-- C1 (confirmed): for any file contents and any segment size in the
server's accepted range, concatenating the chunker's payloads (whose
sequence numbers are exactly `0, 1, …` in list order) restores the file,
and the CRC-32 the server folds over the payloads while segmenting equals
the CRC-32 computed over the reassembled concatenation, which is what the
client checks. -/
theorem c1_roundtrip_crc (bytes : List Nat) (sz : Nat) (hsz1 : 1 ≤ sz)
    (hsz2 : sz ≤ 1300) :
    ((chunk_file bytes sz).map (fun c => c.2.2)).flatten = bytes ∧
    (chunk_file bytes sz).map (fun c => c.1)
      = List.range (chunk_file bytes sz).length ∧
    serverFileCrc bytes sz
      = crc32 (((chunk_file bytes sz).map (fun c => c.2.2)).flatten) 0 := by
  have hjoin := chunk_join_aux sz hsz1 bytes.length bytes (Nat.le_refl _) 0 0
  have hseq := chunk_seq_aux sz hsz1 bytes.length bytes (Nat.le_refl _) 0 0
  refine ⟨hjoin, ?_, ?_⟩
  · rw [List.range_eq_range']
    exact hseq
  · unfold serverFileCrc
    rw [show (chunk_file bytes sz).foldl (fun acc c => crc32 c.2.2 acc) 0
        = ((chunk_file bytes sz).map (fun c => c.2.2)).foldl
            (fun acc p => crc32 p acc) 0 from
        (List.foldl_map (fun c : Nat × Nat × List Nat => c.2.2)
          (fun acc p => crc32 p acc) (chunk_file bytes sz) 0).symm,
      crc_fold_flatten]

/-- Witness for `c1_roundtrip_crc` on the 10-byte file `b"ABCDEFGHIJ"`
with segment size 4 (spec scenario A). -/
theorem c1_roundtrip_crc_witness :
    ((chunk_file [65, 66, 67, 68, 69, 70, 71, 72, 73, 74] 4).map
        (fun c => c.2.2)).flatten = [65, 66, 67, 68, 69, 70, 71, 72, 73, 74] ∧
    (chunk_file [65, 66, 67, 68, 69, 70, 71, 72, 73, 74] 4).map
        (fun c => c.1)
      = List.range (chunk_file [65, 66, 67, 68, 69, 70, 71, 72, 73, 74]
          4).length ∧
    serverFileCrc [65, 66, 67, 68, 69, 70, 71, 72, 73, 74] 4
      = crc32 (((chunk_file [65, 66, 67, 68, 69, 70, 71, 72, 73, 74] 4).map
          (fun c => c.2.2)).flatten) 0 :=
  c1_roundtrip_crc [65, 66, 67, 68, 69, 70, 71, 72, 73, 74] 4 (by decide)
    (by decide)

/-- C6 (amended): for every *nonempty* file the server serves, exactly
one built DATA frame carries the final flag, and a frame's flag is set
iff its offset plus payload length equals the file size. -/
theorem c6_final_flag (bytes : List Nat) (sz : Nat) (hb : bytes ≠ [])
    (hsz : 1 ≤ sz) :
    countFinal (serveFlagged bytes sz) = 1 ∧
    ∀ c ∈ serveFlagged bytes sz,
      (c.2.2.2 = 1 ↔ c.2.1 + c.2.2.1.length = bytes.length) := by
  constructor
  · unfold countFinal serveFlagged
    rw [List.filter_map, List.length_map]
    have hpred : ((fun c : Nat × Nat × List Nat × Nat => c.2.2.2 == 1) ∘
        (fun c : Nat × Nat × List Nat =>
          (c.1, c.2.1, c.2.2,
            if bytes.length ≤ c.2.1 + c.2.2.length then 1 else 0)))
        = fun c => decide (bytes.length ≤ c.2.1 + c.2.2.length) := by
      funext c
      by_cases h : bytes.length ≤ c.2.1 + c.2.2.length <;> simp [h]
    rw [hpred]
    exact chunk_final_count_aux sz hsz bytes.length bytes (Nat.le_refl _)
      hb 0 0 bytes.length (by omega)
  · intro c hc
    unfold serveFlagged at hc
    obtain ⟨ch, hmem, rfl⟩ := List.mem_map.mp hc
    have hle := chunk_le_aux sz hsz bytes.length bytes (Nat.le_refl _) 0 0
      ch hmem
    simp only []
    constructor
    · intro hflag
      by_cases h : bytes.length ≤ ch.2.1 + ch.2.2.length
      · omega
      · simp [h] at hflag
    · intro heq
      rw [if_pos (by omega)]

/-- C6 counterexample: the empty file is served with zero DATA frames,
so no frame at all carries the final flag — "exactly one" fails. -/
theorem c6_counterexample_empty_file :
    serveFlagged [] 4 = [] ∧ countFinal (serveFlagged [] 4) ≠ 1 := by
  have h : serveFlagged [] 4 = [] := by
    unfold serveFlagged chunk_file
    rw [chunkAux_unfold]
    simp
  exact ⟨h, by rw [h]; decide⟩

/-- Witness for `c6_final_flag` on a concrete 3-byte file with segment
size 2. -/
theorem c6_final_flag_witness :
    countFinal (serveFlagged [65, 66, 67] 2) = 1 :=
  (c6_final_flag [65, 66, 67] 2 (by decide) (by decide)).1

/-- Witness for `c10_trailing_junk_ignored` at a concrete frame and junk
bytes. -/
theorem c10_trailing_junk_ignored_witness :
    unpack_data (pack_data 0 1 10 4 [69, 70] 0 ++ [255, 7])
      = unpack_data (pack_data 0 1 10 4 [69, 70] 0) ∧
    unpack_data (pack_data 0 1 10 4 [69, 70] 0 ++ [255, 7])
      = .ok (0 &&& 0xFF, 1, 10, 4, 2, [69, 70], (0 &&& 0x01) != 0) := by
  have h := c10_trailing_junk_ignored 0 1 10 4 0 [69, 70] [255, 7]
    (by decide) (by decide) (by decide) (by decide) (by decide)
    (by decide)
  exact ⟨h.1, h.2⟩

/-! ## Lemmas: the truncating decoders -/

theorem nackEntries_length (data : List Nat) :
    ∀ count off, (nackEntries data off count).length
      = min count ((data.length - off) / 4) := by
  intro count
  induction count with
  | zero => intro off; simp [nackEntries]
  | succ c ih =>
    intro off
    rw [nackEntries]
    by_cases h : off + 4 > data.length
    · rw [if_pos h]
      simp only [List.length_nil]
      omega
    · rw [if_neg h]
      simp only [List.length_cons, ih]
      omega

theorem nackEntries_getD (data : List Nat) :
    ∀ count off k, k < (nackEntries data off count).length →
      (nackEntries data off count).getD k 0 = readBE data (off + 4 * k) 4 := by
  intro count
  induction count with
  | zero => intro off k hk; simp [nackEntries] at hk
  | succ c ih =>
    intro off k hk
    rw [nackEntries] at hk ⊢
    by_cases h : off + 4 > data.length
    · rw [if_pos h] at hk
      simp at hk
    · rw [if_neg h] at hk ⊢
      cases k with
      | zero => simp
      | succ k2 =>
        simp only [List.length_cons] at hk
        simp only [List.getD_cons_succ]
        rw [ih (off + 4) k2 (by omega)]
        congr 1
        omega

/-- C7 (amended): when a declared length field would read past the buffer
end, no decoder raises a malformed-frame error; each truncates to what
fits.  GET and ERR return the name/message cut at the buffer end
(subject only to UTF-8 validity), NACK returns the entries that fit
(`min count ((len-5)/4)` of them, each read at its offset), and DATA
truncates the payload to the available bytes, then applies the ordinary
checksum comparison to the truncated content. -/
theorem c7_truncating_decoders :
    (∀ data : List Nat, 5 ≤ data.length → data.getD 0 0 = 0x01 →
      data.getD 1 0 = 1 → data.length - 5 < readBE data 3 2 →
      utf8Valid (data.drop 5) = true →
      unpack_get data = .ok (data.drop 5)) ∧
    (∀ data : List Nat, 5 ≤ data.length → data.getD 0 0 = 0x7F →
      data.getD 1 0 = 1 → data.length - 5 < readBE data 3 2 →
      utf8Valid (data.drop 5) = true →
      unpack_err data = .ok (data.getD 2 0, data.drop 5)) ∧
    (∀ data : List Nat, 5 ≤ data.length → data.getD 0 0 = 0x11 →
      data.getD 1 0 = 1 →
      unpack_nack data = .ok (nackEntries data 5 (readBE data 3 2)) ∧
      (nackEntries data 5 (readBE data 3 2)).length
        = min (readBE data 3 2) ((data.length - 5) / 4) ∧
      ∀ k, k < (nackEntries data 5 (readBE data 3 2)).length →
        (nackEntries data 5 (readBE data 3 2)).getD k 0
          = readBE data (5 + 4 * k) 4) ∧
    (∀ data : List Nat, 30 ≤ data.length → data.getD 0 0 = 0x02 →
      data.getD 1 0 = 1 → data.length - 30 < readBE data 24 2 →
      unpack_data data
        = if readBE data 26 4 = crc32 (data.take 26 ++ data.drop 30) 0
          then .ok (data.getD 3 0, readBE data 4 4, readBE data 8 8,
            readBE data 16 8, readBE data 24 2, data.drop 30,
            (data.getD 2 0 &&& 0x01) != 0)
          else .error "Checksum incorreto") := by
  refine ⟨?_, ?_, ?_, ?_⟩
  · intro data hlen h0 h1 hover hutf
    simp only [unpack_get]
    rw [if_neg (by omega), if_neg (not_not_intro ⟨h0, h1⟩),
      List.take_of_length_le (by simp [List.length_drop]; omega),
      if_pos hutf]
  · intro data hlen h0 h1 hover hutf
    simp only [unpack_err]
    rw [if_neg (by omega), if_neg (not_not_intro ⟨h0, h1⟩),
      List.take_of_length_le (by simp [List.length_drop]; omega),
      if_pos hutf]
  · intro data hlen h0 h1
    refine ⟨?_, nackEntries_length data _ 5, fun k hk => ?_⟩
    · simp only [unpack_nack]
      rw [if_neg (by omega), if_neg (not_not_intro ⟨h0, h1⟩)]
    · rw [nackEntries_getD data _ 5 k hk]
  · intro data hlen h0 h1 hover
    simp only [unpack_data]
    rw [if_neg (by omega), if_neg (not_not_intro ⟨h0, h1⟩),
      show (data.drop 30).take (readBE data 24 2) = data.drop 30 from
        List.take_of_length_le (by simp [List.length_drop]; omega)]
    by_cases h : readBE data 26 4 = crc32 (data.take 26 ++ data.drop 30) 0
    · rw [if_neg (not_not_intro h), if_pos h]
    · rw [if_pos h, if_neg h]

/-- C7 counterexample: a GET frame declaring `name_len = 10` over a
3-byte name decodes *successfully* to the truncated name instead of
failing with a malformed-frame error. -/
theorem c7_counterexample_get_truncation :
    unpack_get [1, 1, 0, 0, 10, 97, 98, 99] = .ok [97, 98, 99] := by
  rfl

/-- Witness for `c7_truncating_decoders`: each decoder applied to a
concrete buffer whose declared length field overruns the buffer. -/
theorem c7_truncating_decoders_witness :
    unpack_get [1, 1, 0, 0, 9, 104, 105] = .ok [104, 105] ∧
    unpack_err [127, 1, 5, 0, 9, 104, 105] = .ok (5, [104, 105]) ∧
    unpack_nack [17, 1, 0, 0, 5, 0, 0, 0, 7, 0, 0, 0, 9, 0, 0]
      = .ok [7, 9] ∧
    unpack_data [2, 1, 0, 0, 0, 0, 0, 1, 0, 0, 0, 0, 0, 0, 0, 10,
        0, 0, 0, 0, 0, 0, 0, 0, 0, 100, 0, 0, 0, 0]
      = .error "Checksum incorreto" := by
  refine ⟨?_, ?_, ?_, ?_⟩
  · have h := c7_truncating_decoders.1 [1, 1, 0, 0, 9, 104, 105]
      (by decide) (by decide) (by decide) (by decide) (by decide)
    simpa using h
  · have h := c7_truncating_decoders.2.1 [127, 1, 5, 0, 9, 104, 105]
      (by decide) (by decide) (by decide) (by decide) (by decide)
    simpa using h
  · have h := (c7_truncating_decoders.2.2.1
      [17, 1, 0, 0, 5, 0, 0, 0, 7, 0, 0, 0, 9, 0, 0]
      (by decide) (by decide) (by decide)).1
    rw [h]
    rfl
  · have h := c7_truncating_decoders.2.2.2
      [2, 1, 0, 0, 0, 0, 0, 1, 0, 0, 0, 0, 0, 0, 0, 10,
        0, 0, 0, 0, 0, 0, 0, 0, 0, 100, 0, 0, 0, 0]
      (by decide) (by decide) (by decide) (by decide)
    rw [h]
    rfl

/-! ## Lemmas: server NACK handling -/

theorem pack_data_ne_nil (win seq tot off flags : Nat)
    (payload : List Nat) : pack_data win seq tot off payload flags ≠ [] := by
  rw [pack_data_eq]
  simp [headerWoCrc]

theorem serveFrames_vals_ne_nil (bytes : List Nat) (sz : Nat) :
    ∀ pkt ∈ (serveFrames bytes sz).map (fun p => p.2), pkt ≠ [] := by
  intro pkt hmem
  simp only [serveFrames, List.map_map, List.mem_map] at hmem
  obtain ⟨c, _, rfl⟩ := hmem
  exact pack_data_ne_nil _ _ _ _ _ _

theorem dictGet_mem_vals {segs : Dict} {k : Nat} {pkt : List Nat}
    (h : dictGet segs k = some pkt) : pkt ∈ segs.map (fun p => p.2) := by
  unfold dictGet at h
  cases hf : segs.find? (fun p => p.1 = k) with
  | none => rw [hf] at h; simp at h
  | some e =>
    rw [hf] at h
    simp only [Option.map_some'] at h
    exact List.mem_map.mpr
      ⟨e, List.mem_of_find?_eq_some hf, Option.some.inj h⟩

/-- C3 (confirmed): for any decoded NACK sequence list and any
session-store state whose cached frames are nonempty (as in every
reachable state: the server caches only `pack_data` outputs, which are
never empty — third conjunct), the server retransmits exactly the cached
frames of the requested sequence numbers, in request order; requested
numbers absent from the cache are silently skipped, and a requester with
no session entry gets nothing, without crashing. -/
theorem c3_nack_exact_retransmission (store : List ((Nat × Nat) × Dict))
    (addr : Nat × Nat) (data : List Nat) (seqs : List Nat)
    (hdec : unpack_nack data = .ok seqs) :
    ((store.find? (fun p => p.1 = addr)).map (fun p => p.2) = none →
      handle_nack store addr data = []) ∧
    (∀ segs, (store.find? (fun p => p.1 = addr)).map (fun p => p.2)
        = some segs →
      (∀ pkt ∈ segs.map (fun p => p.2), pkt ≠ []) →
      handle_nack store addr data = seqs.filterMap (dictGet segs) ∧
      ∀ pkt, (pkt ∈ handle_nack store addr data ↔
        ∃ sq ∈ seqs, dictGet segs sq = some pkt)) ∧
    (∀ bytes sz, ∀ pkt ∈ (serveFrames bytes sz).map (fun p => p.2),
      pkt ≠ []) := by
  refine ⟨?_, ?_, fun bytes sz => serveFrames_vals_ne_nil bytes sz⟩
  · intro hnone
    unfold handle_nack
    rw [hdec, hnone]
  · intro segs hsome hvals
    have heq : handle_nack store addr data
        = seqs.filterMap (dictGet segs) := by
      unfold handle_nack
      rw [hdec, hsome]
      cases segs with
      | nil =>
        have hnil : List.filterMap (dictGet ([] : Dict)) seqs = [] := by
          have hd : dictGet ([] : Dict) = fun _ => none := by
            funext k
            rfl
          rw [hd]
          induction seqs with
          | nil => rfl
          | cons a l ih => simpa using ih
        rw [hnil]
        rfl
      | cons a l =>
        have hfun : (fun s =>
            match dictGet (a :: l) s with
            | some pkt => if pkt.isEmpty then none else some pkt
            | none => none)
            = dictGet (a :: l) := by
          funext s
          cases hg : dictGet (a :: l) s with
          | none => simp
          | some pkt =>
            have hne := hvals pkt (dictGet_mem_vals hg)
            have hpe : pkt.isEmpty = false := by
              cases pkt with
              | nil => exact absurd rfl hne
              | cons b m => rfl
            simp [hpe]
        show List.filterMap (fun s =>
            match dictGet (a :: l) s with
            | some pkt => if pkt.isEmpty then none else some pkt
            | none => none) seqs
          = List.filterMap (dictGet (a :: l)) seqs
        rw [hfun]
    refine ⟨heq, fun pkt => ?_⟩
    rw [heq, List.mem_filterMap]

/-- Witness for `c3_nack_exact_retransmission`: a concrete store with
cached frames for sequences 0 and 2, NACK requesting 0, 1, 2 and 5. -/
theorem c3_nack_exact_retransmission_witness :
    handle_nack [((0, 0), [(0, [1, 2]), (2, [3])])] (0, 0)
      (pack_nack [0, 1, 2, 5]) = [[1, 2], [3]] := by
  have h := (c3_nack_exact_retransmission
    [((0, 0), [(0, [1, 2]), (2, [3])])] (0, 0) (pack_nack [0, 1, 2, 5])
    [0, 1, 2, 5] (by rfl)).2.1 [(0, [1, 2]), (2, [3])] (by rfl) (by decide)
  rw [h.1]
  rfl

/-! ## Lemmas: client END handling -/

theorem unpack_end_ok_facts (d : List Nat) (tseg fcrc : Nat)
    (h : unpack_end d = .ok (tseg, fcrc)) :
    11 ≤ d.length ∧ d.getD 0 0 = 3 ∧ d.getD 1 0 = 1 := by
  unfold unpack_end at h
  by_cases h1 : d.length < 11
  · rw [if_pos h1] at h
    simp at h
  · rw [if_neg h1] at h
    by_cases h2 : ¬ (d.getD 0 0 = 0x03 ∧ d.getD 1 0 = 1)
    · rw [if_pos h2] at h
      simp at h
    · push_neg at h2
      exact ⟨by omega, h2.1, h2.2⟩

/-- Pigeonhole: a buffer with fewer (not necessarily distinct-keyed)
entries than `total_segments` must be missing some sequence number below
it. -/
theorem missingSegments_ne_nil (segs : Dict) (tseg : Nat) (hne : segs ≠ [])
    (hsize : dictSize segs < tseg) :
    missingSegments segs (some tseg) ≠ [] := by
  unfold missingSegments
  have hie : segs.isEmpty = false := by
    cases segs with
    | nil => exact absurd rfl hne
    | cons a l => rfl
  rw [hie]
  simp only [Bool.false_eq_true, if_false]
  intro hempty
  have hall : ∀ i, i < tseg → dictHas segs i = true := by
    intro i hi
    by_contra hno
    have hmem : i ∈ (List.range tseg).filter (fun i => !(dictHas segs i)) := by
      refine List.mem_filter.mpr ⟨List.mem_range.mpr hi, ?_⟩
      simp only [Bool.not_eq_true] at hno
      simp [hno]
    rw [hempty] at hmem
    simp at hmem
  have hsub : (List.range tseg).toFinset ⊆ (dictKeys segs).toFinset := by
    intro i hi
    rw [List.mem_toFinset] at hi ⊢
    obtain ⟨p, hp, hpi⟩ := List.any_eq_true.mp (hall i (List.mem_range.mp hi))
    exact List.mem_map.mpr ⟨p, hp, by simpa using hpi⟩
  have h1 : (List.range tseg).toFinset.card = tseg := by
    rw [List.toFinset_card_of_nodup (List.nodup_range tseg)]
    exact List.length_range tseg
  have h2 : (dictKeys segs).toFinset.card ≤ (dictKeys segs).length :=
    List.toFinset_card_le _
  have h3 := Finset.card_le_card hsub
  have h4 : (dictKeys segs).length = dictSize segs := by
    unfold dictKeys dictSize
    exact List.length_map _ _
  omega

/-- C4 (amended): when the client decodes an END declaring
`total_segments` while its buffer is *nonempty* and holds fewer entries,
it computes the (provably nonempty) missing set under that count, sends a
NACK listing it, and continues receiving with the new
`total_segments`/`file_crc` recorded; when the buffer holds at least
`total_segments` entries it sends OK and leaves the loop. -/
theorem c4_end_gap_nack (s : ClientState) (d : List Nat) (tseg fcrc : Nat)
    (rd : Bool) (hdec : unpack_end d = .ok (tseg, fcrc))
    (hne : s.segments ≠ []) :
    (dictSize s.segments < tseg →
      missingSegments s.segments (some tseg) ≠ [] ∧
      clientStep s (.recv d rd)
        = .cont { s with
            timeoutCount := 0
            lastT := 3
            totalSegments := some tseg
            fileCrc := some fcrc }
          [pack_nack (missingSegments s.segments (some tseg))]) ∧
    (tseg ≤ dictSize s.segments →
      clientStep s (.recv d rd)
        = .brk { s with
            timeoutCount := 0
            lastT := 3
            totalSegments := some tseg
            fileCrc := some fcrc }
          [pack_ok]) := by
  obtain ⟨hlen, h0, h1⟩ := unpack_end_ok_facts d tseg fcrc hdec
  obtain ⟨t, rest, rfl⟩ : ∃ t rest, d = t :: rest := by
    cases d with
    | nil => simp at hlen
    | cons a l => exact ⟨a, l, rfl⟩
  have ht : t = 3 := by simpa using h0
  subst ht
  constructor
  · intro hsize
    have hmiss := missingSegments_ne_nil s.segments tseg hne hsize
    have hmiss' : (missingSegments s.segments (some tseg)).isEmpty
        = false := by
      cases hmm : missingSegments s.segments (some tseg) with
      | nil => exact absurd hmm hmiss
      | cons a l => rfl
    refine ⟨hmiss, ?_⟩
    simp [clientStep, hdec, hsize, hmiss']
  · intro hsize
    have hsize' : ¬ (dictSize s.segments < tseg) := by omega
    simp [clientStep, hdec, hsize']

/-- C4 counterexample: with an *empty* reassembly buffer, receiving
`END(total_segments = 5)` does not send a NACK — `_missing_segments`
returns `[]` for an empty buffer, so the client sends OK and leaves the
receive loop. -/
theorem c4_counterexample_empty_buffer :
    clientStep (initState [1] [] 2) (.recv (pack_end 5 0) false)
      = .brk { initState [1] [] 2 with
          timeoutCount := 0
          lastT := 3
          totalSegments := some 5
          fileCrc := some 0 } [pack_ok] := by
  decide

/-- Witness for `c4_end_gap_nack`: buffer `{0 ↦ b"A"}`, END declaring 3
segments. -/
theorem c4_end_gap_nack_witness :
    clientStep { initState [1] [] 2 with segments := [(0, [65])] }
      (.recv (pack_end 3 0) false)
      = .cont { { initState [1] [] 2 with segments := [(0, [65])] } with
          timeoutCount := 0
          lastT := 3
          totalSegments := some 3
          fileCrc := some 0 }
        [pack_nack (missingSegments [(0, [65])] (some 3))] :=
  ((c4_end_gap_nack { initState [1] [] 2 with segments := [(0, [65])] }
    (pack_end 3 0) 3 0 false (by rfl) (by decide)).1 (by decide)).2

/-! ## The zero-length file -/

/-- C5: for a zero-length file the server produces no DATA segments and
one END frame declaring `total_segments = 0` with the CRC-32 of empty
data (which is 0) — but the client's request then FAILS: after the
discarded first reply (the END), a timeout resends the GET, the re-sent
END makes the loop send OK and break, and the post-loop
`if not segments` check reports failure ("Nenhum dado recebido") instead
of saving an empty file. -/
theorem c5_zero_length_file_fails :
    (∀ sz : Nat, serveFrames [] sz = [] ∧
      serveAll [] sz = [pack_end 0 0]) ∧
    crc32 [] 0 = 0 ∧
    pack_end 0 0 = [3, 1, 1, 0, 0, 0, 0, 0, 0, 0, 0] ∧
    clientRequest (pack_get [97]) [] (pack_end 0 0)
      [.timeout, .recv (pack_end 0 0) false] = .finished .failure := by
  refine ⟨?_, by rfl, by rfl, by decide⟩
  intro sz
  constructor
  · unfold serveFrames serveFlagged chunk_file
    rw [chunkAux_unfold]
    simp
  · unfold serveAll serverFileCrc serveFrames serveFlagged chunk_file
    rw [chunkAux_unfold]
    simp

/-! ## Lemmas: the timeout ceiling -/

theorem clientStep_timeout_cases (s : ClientState) :
    clientStep s .timeout = .halt [] ∨
    ∃ sends, clientStep s .timeout
      = .cont { s with timeoutCount := s.timeoutCount + 1 } sends := by
  by_cases h3 : 3 ≤ s.timeoutCount + 1
  · left
    simp [clientStep, h3]
  · simp only [clientStep]
    rw [if_neg h3]
    split_ifs <;> first | exact Or.inl rfl | exact Or.inr ⟨_, rfl⟩

/-- Every continue-result of a timeout iteration carries the incremented
counter. -/
theorem timeout_count_incr (s : ClientState) :
    (match clientStep s .timeout with
     | .cont s' _ => s'.timeoutCount = s.timeoutCount + 1
     | _ => True) := by
  simp only [clientStep]
  split_ifs <;> first | trivial | rfl

/-- Every continue-result of a receive iteration carries a zeroed
counter. -/
theorem recv_count_zero (s : ClientState) (d : List Nat) (rd : Bool) :
    (match clientStep s (.recv d rd) with
     | .cont s' _ => s'.timeoutCount = 0
     | .brk s' _ => s'.timeoutCount = 0
     | _ => True) := by
  rcases d with _ | ⟨t, rest⟩
  · simp [clientStep]
  · simp only [clientStep]
    by_cases h127 : t = 127
    · rw [if_pos h127]
      trivial
    rw [if_neg h127]
    by_cases h2 : t = 2
    · rw [if_pos h2]
      cases hu : unpack_data (t :: rest) with
      | error e => rfl
      | ok v =>
        obtain ⟨win, seq, tsize, off2, plen, payload, isf⟩ := v
        simp only []
        split_ifs <;> rfl
    rw [if_neg h2]
    by_cases h3 : t = 3
    · rw [if_pos h3]
      cases hu : unpack_end (t :: rest) with
      | error e => rfl
      | ok v =>
        obtain ⟨tseg, fcrc⟩ := v
        simp only []
        split_ifs <;> rfl
    rw [if_neg h3]

/-- C8 (confirmed): the consecutive-timeout counter increments on every
timeout iteration that continues, is reset to zero by any received
datagram that continues the loop, the step aborts as soon as the
incremented counter reaches the ceiling 3, and consequently no run of
the loop survives three consecutive timeouts: any three in a row end the
request with failure, whatever came before or after. -/
theorem c8_three_timeouts_abort :
    (∀ (s : ClientState) (evs : List Event),
      clientRun s (.timeout :: .timeout :: .timeout :: evs)
        = .finished .failure) ∧
    (∀ s : ClientState, 3 ≤ s.timeoutCount + 1 →
      clientStep s .timeout = .halt []) ∧
    (∀ (s s' : ClientState) (sends : List (List Nat)),
      clientStep s .timeout = .cont s' sends →
      s'.timeoutCount = s.timeoutCount + 1) ∧
    (∀ (s s' : ClientState) (d : List Nat) (rd : Bool)
      (sends : List (List Nat)),
      clientStep s (.recv d rd) = .cont s' sends →
      s'.timeoutCount = 0) := by
  have hhi : ∀ s : ClientState, 3 ≤ s.timeoutCount + 1 →
      clientStep s .timeout = .halt [] := by
    intro s h
    simp [clientStep, h]
  refine ⟨?_, hhi, ?_, ?_⟩
  · intro s evs
    simp only [clientRun]
    rcases clientStep_timeout_cases s with h | ⟨sd, h⟩
    · rw [h]
    · rw [h]
      show clientRun { s with timeoutCount := s.timeoutCount + 1 }
        (.timeout :: .timeout :: evs) = .finished .failure
      simp only [clientRun]
      rcases clientStep_timeout_cases
        { s with timeoutCount := s.timeoutCount + 1 } with h2 | ⟨sd2, h2⟩
      · rw [h2]
      · rw [h2]
        simp only [clientRun]
        rw [hhi _ (by simp)]
  · intro s s' sends h
    have hm := timeout_count_incr s
    rw [h] at hm
    exact hm
  · intro s s' d rd sends h
    have hm := recv_count_zero s d rd
    rw [h] at hm
    exact hm

/-- Witness for `c8_three_timeouts_abort` at a concrete state and event
list: three straight timeouts abort the transfer. -/
theorem c8_three_timeouts_abort_witness :
    clientRun (initState [1] [] 2)
      [.timeout, .timeout, .timeout, .recv (pack_end 0 0) false]
      = .finished .failure :=
  c8_three_timeouts_abort.1 (initState [1] [] 2)
    [.recv (pack_end 0 0) false]

/-! ## Lemmas: the dead first-reply variable

The local `t = data[0]` read before the loop is overwritten by every
received datagram before any branching uses it, so two runs differing
only in it coincide up to that field. -/

theorem clientStep_eraseT (s : ClientState) (x : Nat) (e : Event) :
    eraseRes (clientStep { s with lastT := x } e)
      = eraseRes (clientStep s e) := by
  cases e with
  | recv d rd => rfl
  | timeout =>
    simp only [clientStep]
    split_ifs <;> simp [eraseRes, eraseT]

theorem finalize_eraseT (s : ClientState) (x : Nat) :
    finalize { s with lastT := x } = finalize s := rfl

theorem eraseT_shift {a b : ClientState} (h : eraseT a = eraseT b) :
    b = { a with lastT := b.lastT } := by
  cases a
  cases b
  simp only [eraseT, ClientState.mk.injEq] at h ⊢
  simp_all

theorem stepErase {a b : ClientState} (e : Event) (h : eraseT a = eraseT b) :
    eraseRes (clientStep a e) = eraseRes (clientStep b e) := by
  rw [eraseT_shift h]
  exact (clientStep_eraseT a b.lastT e).symm

theorem finalizeErase {a b : ClientState} (h : eraseT a = eraseT b) :
    finalize a = finalize b := by
  rw [eraseT_shift h]
  exact (finalize_eraseT a b.lastT).symm

theorem runErase : ∀ (evs : List Event) (a b : ClientState),
    eraseT a = eraseT b →
    eraseRun (clientRun a evs) = eraseRun (clientRun b evs) := by
  intro evs
  induction evs with
  | nil =>
    intro a b h
    simp only [clientRun, eraseRun]
    rw [h]
  | cons e rest ih =>
    intro a b h
    have hs := stepErase e h
    simp only [clientRun]
    cases ha : clientStep a e with
    | cont s1 snd1 =>
      cases hb : clientStep b e with
      | cont s2 snd2 =>
        rw [ha, hb] at hs
        simp only [eraseRes] at hs
        injection hs with hx hy
        exact ih s1 s2 hx
      | brk s2 snd2 =>
        rw [ha, hb] at hs
        exact StepRes.noConfusion hs
      | halt snd2 =>
        rw [ha, hb] at hs
        exact StepRes.noConfusion hs
      | crash =>
        rw [ha, hb] at hs
        exact StepRes.noConfusion hs
    | brk s1 snd1 =>
      cases hb : clientStep b e with
      | cont s2 snd2 =>
        rw [ha, hb] at hs
        exact StepRes.noConfusion hs
      | brk s2 snd2 =>
        rw [ha, hb] at hs
        simp only [eraseRes] at hs
        injection hs with hx hy
        simp only [eraseRun]
        rw [finalizeErase hx]
      | halt snd2 =>
        rw [ha, hb] at hs
        exact StepRes.noConfusion hs
      | crash =>
        rw [ha, hb] at hs
        exact StepRes.noConfusion hs
    | halt snd1 =>
      cases hb : clientStep b e with
      | cont s2 snd2 =>
        rw [ha, hb] at hs
        exact StepRes.noConfusion hs
      | brk s2 snd2 =>
        rw [ha, hb] at hs
        exact StepRes.noConfusion hs
      | halt snd2 => rfl
      | crash =>
        rw [ha, hb] at hs
        exact StepRes.noConfusion hs
    | crash =>
      cases hb : clientStep b e with
      | cont s2 snd2 =>
        rw [ha, hb] at hs
        exact StepRes.noConfusion hs
      | brk s2 snd2 =>
        rw [ha, hb] at hs
        exact StepRes.noConfusion hs
      | halt snd2 =>
        rw [ha, hb] at hs
        exact StepRes.noConfusion hs
      | crash => rfl

/-- C9 (confirmed): the first datagram received after sending the GET is
only read into the dead local `t` (crashing on an empty datagram) and
then discarded: two requests whose first replies are any two nonempty
datagrams behave identically — same outcome, same state up to the dead
variable — over every subsequent event sequence, so that first reply's
content never enters the reassembly buffer. -/
theorem c9_first_reply_ignored (req dropMap first first' : List Nat)
    (evs : List Event) (h1 : first ≠ []) (h2 : first' ≠ []) :
    eraseRun (clientRequest req dropMap first evs)
      = eraseRun (clientRequest req dropMap first' evs) := by
  obtain ⟨t, r, rfl⟩ : ∃ t r, first = t :: r := by
    cases first with
    | nil => exact absurd rfl h1
    | cons a l => exact ⟨_, _, rfl⟩
  obtain ⟨t', r', rfl⟩ : ∃ t r, first' = t :: r := by
    cases first' with
    | nil => exact absurd rfl h2
    | cons a l => exact ⟨_, _, rfl⟩
  exact runErase evs (initState req dropMap t) (initState req dropMap t') rfl

/-- Witness for `c9_first_reply_ignored`: a DATA-typed and an ERR-typed
first reply produce identical runs. -/
theorem c9_first_reply_ignored_witness :
    eraseRun (clientRequest [1] [] [2, 9, 9] [.timeout])
      = eraseRun (clientRequest [1] [] [127] [.timeout]) :=
  c9_first_reply_ignored [1] [] [2, 9, 9] [127] [.timeout] (by decide)
    (by decide)

end UdpRdt
